import Mathlib

/-!
# Verification of the footy-data-kit extraction & merge core

This file gives a shallow embedding of the data-normalisation and
dataset-merging core of the repository (the functions of
`generate-output-files.js`, `combine-output-files.js`, the notes-derived
outcome classifiers of `utils.js`, the legend application of
`parse-division-table.js` / `parse-ext-season-overview-pages.js`, and the
RSSSF fixed-width table parser of `rsssf/parse-page.js`) and proves or
refutes the specification's claims about them.

JavaScript values are modelled by the inductive type `JVal` (JSON values
plus `undefined`); JS numbers are modelled as rationals (the code only
performs parsing, comparison and subtraction on them, which agree with
exact arithmetic on all data in scope).  Objects are association lists of
fields in insertion order, matching JS object-key enumeration order for
string keys; property assignment replaces the first occurrence of a key or
appends.  Functions that `throw` are modelled in `Except String`.
-/

namespace FootyData

/-! ## Character-list string primitives

All string processing is done on `List Char` so that proofs reduce
structurally.  These model the ASCII behaviour of the JS string methods
used by the source (`trim`, `toLowerCase`, `includes`, `split`), which is
the relevant behaviour for the data in scope. -/

/-- Does `cs` start with the list `p`? (model of a JS `startsWith`). -/
def listStartsWith {α : Type} [DecidableEq α] : List α → List α → Bool
  | _, [] => true
  | [], _ :: _ => false
  | c :: cs, p :: ps => c = p && listStartsWith cs ps

/-- Does `hay` contain `needle` as a contiguous run? (JS `String.prototype.includes`). -/
def listHasRun {α : Type} [DecidableEq α] (needle : List α) : List α → Bool
  | [] => listStartsWith ([] : List α) needle
  | c :: cs => listStartsWith (c :: cs) needle || listHasRun needle cs

/-- JS `hay.includes(needle)`. -/
def strHas (hay needle : String) : Bool :=
  listHasRun needle.toList hay.toList

/-- JS `s.toLowerCase()` (ASCII model). -/
def strLower (s : String) : String :=
  .mk (s.toList.map Char.toLower)

/-- JS `s.toUpperCase()` (ASCII model). -/
def strUpper (s : String) : String :=
  .mk (s.toList.map Char.toUpper)

def isWsChar (c : Char) : Bool :=
  c = ' ' || c = '\t' || c = '\n' || c = '\r'

/-- JS `s.trim()` (ASCII-whitespace model). -/
def strTrim (s : String) : String :=
  .mk (((s.toList.dropWhile isWsChar).reverse.dropWhile isWsChar).reverse)

theorem dropWhileLenLe (p : Char → Bool) (cs : List Char) :
    (cs.dropWhile p).length ≤ cs.length := by
  induction cs with
  | nil => simp
  | cons c cs ih =>
    simp only [List.dropWhile]
    split
    · exact Nat.le_trans ih (by simp)
    · simp

/-- Helper for `splitWsChars`: `acc` holds the reversed current token. -/
def splitWsAux : List Char → List Char → List (List Char)
  | acc, [] => if acc.isEmpty then [] else [acc.reverse]
  | acc, c :: cs =>
    if isWsChar c then
      if acc.isEmpty then splitWsAux [] cs
      else acc.reverse :: splitWsAux [] cs
    else splitWsAux (c :: acc) cs

/-- Split a character list on whitespace runs, dropping empty groups
(model of JS `s.split(/\s+/)` applied to a trimmed string). -/
def splitWsChars (cs : List Char) : List (List Char) :=
  splitWsAux [] cs

/-- Whitespace tokenisation of a string (JS `trimmed.split(/\s+/)`). -/
def strTokens (s : String) : List String :=
  (splitWsChars s.toList).map (fun cs => String.mk cs)

/-- Split a list at every occurrence of a separator element
(model of JS `s.split('\n')`). -/
def splitOnChar (sep : Char) : List Char → List (List Char)
  | [] => [[]]
  | c :: cs =>
    let rest := splitOnChar sep cs
    if c = sep then [] :: rest
    else
      match rest with
      | [] => [[c]]
      | g :: gs => (c :: g) :: gs

def digitVal (c : Char) : Nat := c.toNat - '0'.toNat

/-- Value of a run of decimal digits. -/
def digitsToNat (cs : List Char) : Nat :=
  cs.foldl (fun acc c => acc * 10 + digitVal c) 0

/-- JS `Number.parseInt(s, 10)`: skip leading whitespace, optional sign,
then the longest prefix of decimal digits; `NaN` (here `none`) if that
prefix is empty.  Trailing garbage is ignored. -/
def jsParseInt (s : String) : Option Int :=
  let cs := s.toList.dropWhile isWsChar
  let core : List Char → Option Int := fun ds =>
    let digits := ds.takeWhile Char.isDigit
    if digits.isEmpty then none else some (digitsToNat digits : Int)
  match cs with
  | '-' :: rest => (core rest).map (fun n => -n)
  | '+' :: rest => core rest
  | _ => core cs

/-- Model of JS `Number(s)` string-to-number conversion, restricted to the
decimal-literal forms that occur in the data: optional sign, digits with an
optional fractional part; the whole (trimmed) string must be consumed.
The empty/whitespace-only string converts to `0`.  Exotic forms
(hexadecimal, exponents, `Infinity`) are not modelled and yield `none`
(`NaN`), which is also what all malformed strings yield. -/
def jsStrToNum (s : String) : Option ℚ :=
  let cs := (strTrim s).toList
  if cs.isEmpty then some 0
  else
    let core : List Char → Option ℚ := fun ds =>
      let intPart := ds.takeWhile Char.isDigit
      let rest := ds.dropWhile Char.isDigit
      match rest with
      | [] => if intPart.isEmpty then none else some (digitsToNat intPart : ℚ)
      | '.' :: frac =>
        if frac.all Char.isDigit ∧ ¬(intPart.isEmpty ∧ frac.isEmpty) then
          some ((digitsToNat intPart : ℚ) +
            (digitsToNat frac : ℚ) / ((10 : ℚ) ^ frac.length))
        else none
      | _ => none
    match cs with
    | '-' :: rest => (core rest).map (fun q => -q)
    | '+' :: rest => core rest
    | _ => core cs

/-! ## JavaScript values -/

/-- A JavaScript value: JSON values plus `undefined`.  Numbers are exact
rationals (see the file header). -/
inductive JVal where
  | jundefined
  | jnull
  | jbool (b : Bool)
  | jnum (q : ℚ)
  | jstr (s : String)
  | jarr (xs : List JVal)
  | jobj (fs : List (String × JVal))

namespace JVal

mutual

def beqJ : JVal → JVal → Bool
  | .jundefined, .jundefined => true
  | .jnull, .jnull => true
  | .jbool a, .jbool b => a = b
  | .jnum a, .jnum b => a = b
  | .jstr a, .jstr b => a = b
  | .jarr a, .jarr b => beqL a b
  | .jobj a, .jobj b => beqF a b
  | _, _ => false

def beqL : List JVal → List JVal → Bool
  | [], [] => true
  | a :: as, b :: bs => beqJ a b && beqL as bs
  | _, _ => false

def beqF : List (String × JVal) → List (String × JVal) → Bool
  | [], [] => true
  | (k, a) :: as, (k', b) :: bs => k = k' && beqJ a b && beqF as bs
  | _, _ => false

end

mutual

theorem beqJ_iff : ∀ a b : JVal, beqJ a b = true ↔ a = b
  | .jundefined, b => by cases b <;> simp [beqJ]
  | .jnull, b => by cases b <;> simp [beqJ]
  | .jbool a, b => by cases b <;> simp [beqJ]
  | .jnum a, b => by cases b <;> simp [beqJ]
  | .jstr a, b => by cases b <;> simp [beqJ]
  | .jarr a, b => by
      cases b <;> simp [beqJ]
      exact beqL_iff a _
  | .jobj a, b => by
      cases b <;> simp [beqJ]
      exact beqF_iff a _

theorem beqL_iff : ∀ a b : List JVal, beqL a b = true ↔ a = b
  | [], b => by cases b <;> simp [beqL]
  | a :: as, b => by
      cases b with
      | nil => simp [beqL]
      | cons b bs =>
        simp [beqL, Bool.and_eq_true, beqJ_iff a b, beqL_iff as bs]

theorem beqF_iff : ∀ a b : List (String × JVal), beqF a b = true ↔ a = b
  | [], b => by cases b <;> simp [beqF]
  | (k, a) :: as, b => by
      cases b with
      | nil => simp [beqF]
      | cons kb bs =>
        obtain ⟨k', b⟩ := kb
        simp [beqF, Bool.and_eq_true, beqJ_iff a b, beqF_iff as bs, and_assoc]

end

instance : DecidableEq JVal := fun a b =>
  decidable_of_iff (beqJ a b = true) (beqJ_iff a b)

end JVal

open JVal

/-- JS truthiness (`Boolean(v)`); our number model has no `NaN` value. -/
def truthy : JVal → Bool
  | .jundefined => false
  | .jnull => false
  | .jbool b => b
  | .jnum q => decide (q ≠ 0)
  | .jstr s => decide (s ≠ "")
  | .jarr _ => true
  | .jobj _ => true

/-- JS `typeof v === 'object'` (true for `null`, arrays and objects). -/
def typeofObject : JVal → Bool
  | .jnull => true
  | .jarr _ => true
  | .jobj _ => true
  | _ => false

/-- JS loose equality with null (`v == null`): true for `null` and `undefined`. -/
def looseNull : JVal → Bool
  | .jnull => true
  | .jundefined => true
  | _ => false

def isArr : JVal → Bool
  | .jarr _ => true
  | _ => false

/-- Property read on a field list: first occurrence wins, missing key reads
as `undefined`. -/
def getField : List (String × JVal) → String → JVal
  | [], _ => .jundefined
  | (k', v) :: rest, k => if k' = k then v else getField rest k

/-- Property read on a value (`v[k]`); only objects carry named fields here. -/
def getF (v : JVal) (k : String) : JVal :=
  match v with
  | .jobj fs => getField fs k
  | _ => .jundefined

/-- Property assignment `obj[k] = v`: replaces the first occurrence of the
key in place, or appends a new field, exactly as JS insertion order works. -/
def objSet : List (String × JVal) → String → JVal → List (String × JVal)
  | [], k, v => [(k, v)]
  | (k', v') :: rest, k, v =>
    if k' = k then (k, v) :: rest else (k', v') :: objSet rest k v

def hasKey (fs : List (String × JVal)) (k : String) : Bool :=
  fs.any (fun f => f.1 = k)

/-- JS `delete obj[k]`. -/
def removeKey (fs : List (String × JVal)) (k : String) : List (String × JVal) :=
  fs.filter (fun f => f.1 ≠ k)

/-- Collapse duplicate keys (first position, last value), as JS object
construction and spread do; a no-op on genuine (unique-keyed) JS objects. -/
def dedupeFields (fs : List (String × JVal)) : List (String × JVal) :=
  fs.foldl (fun acc f => objSet acc f.1 f.2) []

/-- JS object spread `{...v}`: objects give their fields, arrays their
index-keyed elements; other spreads have no own enumerable properties in
the code paths modelled here. -/
def spreadToObj : JVal → List (String × JVal)
  | .jobj fs => dedupeFields fs
  | .jarr xs => xs.enum.map (fun p => (toString p.1, p.2))
  | _ => []

/-- JS `Object.entries(v)` (and `Object.values` via `.map (·.2)`). -/
def entriesOf : JVal → List (String × JVal)
  | .jobj fs => dedupeFields fs
  | .jarr xs => xs.enum.map (fun p => (toString p.1, p.2))
  | _ => []

/-- JS `Object.keys(v).length`. -/
def keysCount (v : JVal) : Nat :=
  (entriesOf v).length

/-- JS `String(v)` (model).  Integers print exactly as JS does; non-integer
rationals are printed in Lean's `a/b` notation, a divergence that no code
path in scope observes (only team names and notes, which are strings, are
stringified). -/
def jsToString : JVal → String
  | .jundefined => "undefined"
  | .jnull => "null"
  | .jbool b => if b then "true" else "false"
  | .jnum q => if q.den = 1 then toString q.num else toString q
  | .jstr s => s
  | .jarr _ => ""
  | .jobj _ => "[object Object]"

/-- Model of JS `Number(v)` ToNumber coercion for the value forms in scope.
Array and object coercion goes through ToPrimitive; we model the cases the
pipeline can reach (`[]` → 0, singleton arrays of primitives, everything
else → `NaN`, i.e. `none`). -/
def jsNumberOf : JVal → Option ℚ
  | .jundefined => none
  | .jnull => some 0
  | .jbool b => some (if b then 1 else 0)
  | .jnum q => some q
  | .jstr s => jsStrToNum s
  | .jarr [] => some 0
  | .jarr [.jnull] => some 0
  | .jarr [.jundefined] => some 0
  | .jarr [.jnum q] => some q
  | .jarr [.jstr s] => jsStrToNum s
  | .jarr _ => none
  | .jobj _ => none

/-! ## Notes-derived outcome classifiers (`wikipedia/utils.js`) -/

/-- `wasRelegated(note)` from `wikipedia/utils.js`: lowercase the note text
and look for the relegation keywords; all remaining branches return false. -/
def noteWasRelegated (note : Option String) : Bool :=
  let n := strLower (note.getD "")
  if n = "" then false
  else if strHas n "relegat" then true
  else if strHas n "demoted to the" then true
  else false

/-- `wasPromoted(note)` from `wikipedia/utils.js`. -/
def noteWasPromoted (note : Option String) : Bool :=
  strHas (strLower (note.getD "")) "promot"

/-- `isExpansionTeam(note)` from `wikipedia/utils.js`. -/
def noteIsExpansionTeam (note : Option String) : Bool :=
  let n := strLower (note.getD "")
  strHas n "expansion" || strHas n "new club" || strHas n "admitted" ||
    strHas n "joined league"

/-- The `re-elected` substring test of `normaliseLeagueTableEntry`. -/
def noteWasReElected (note : Option String) : Bool :=
  match note with
  | none => false
  | some s => strHas (strLower s) "re-elected"

/-- The `wasReprieved` derivation of `normaliseLeagueTableEntry`
(`generate-output-files.js` line 154): the regex
`/repriv(?:ed|e)d from re-election/i` applied to the lowercased notes.
Note the source's spelling: the pattern matches the strings
`"reprivedd from re-election"` and `"reprived from re-election"`, and in
particular does *not* match the correctly spelled word "reprieved". -/
def noteWasReprieved (note : Option String) : Bool :=
  match note with
  | none => false
  | some s =>
    let n := strLower s
    strHas n "reprivedd from re-election" || strHas n "reprived from re-election"

/-! ## `generate-output-files.js` (the SeasonRecordBuilder / Normalizer) -/

def NUMBER_FIELDS : List String :=
  ["pos", "played", "won", "drawn", "lost", "goalsFor", "goalsAgainst", "points"]

def OPTIONAL_NUMBER_FIELDS : List String := ["goalDifference", "goalAverage"]

def BOOLEAN_FIELDS : List String :=
  ["wasRelegated", "wasPromoted", "isExpansionTeam", "wasReElected", "wasReprieved"]

/-- `toNumber(value, allowNull)`: `null`/`undefined`/`''` become `null`
(when allowed) or `0`; otherwise `Number(value)` must be finite or a
`TypeError` is thrown. -/
def toNumber (value : JVal) (allowNull : Bool) : Except String (Option ℚ) :=
  if looseNull value || value = .jstr "" then
    if allowNull then .ok none else .ok (some 0)
  else
    match jsNumberOf value with
    | some q => .ok (some q)
    | none => .error "Expected numeric value"

/-- `toStringValue(value)`: `null` for nullish input or a blank trimmed
string, otherwise the trimmed string form. -/
def toStringValue (value : JVal) : Option String :=
  match value with
  | .jnull => none
  | .jundefined => none
  | v =>
    let text := strTrim (jsToString v)
    if text = "" then none else some text

/-- `toBoolean(value)`. -/
def toBoolean (value : JVal) : Bool :=
  match value with
  | .jbool b => b
  | .jnull => false
  | .jundefined => false
  | .jnum q => decide (q ≠ 0)
  | .jstr s =>
    let normalized := strTrim (strLower s)
    if normalized = "" then false
    else if normalized = "true" || normalized = "yes" || normalized = "y" ||
      normalized = "promoted" || normalized = "relegated" then true
    else if normalized = "false" || normalized = "no" || normalized = "n" then false
    else true
  | .jarr _ => true
  | .jobj _ => true

/-- Sequential fallible fold (the shape of the JS `for … of` loops whose
body may throw). -/
def foldlME {σ α : Type} (step : σ → α → Except String σ) :
    σ → List α → Except String σ
  | s, [] => .ok s
  | s, a :: l =>
    match step s a with
    | .error e => .error e
    | .ok s' => foldlME step s' l

/-- Sequential fallible map (the shape of `xs.map(f)` where `f` may
throw). -/
def mapME {α β : Type} (f : α → Except String β) :
    List α → Except String (List β)
  | [] => .ok []
  | a :: l =>
    match f a with
    | .error e => .error e
    | .ok b =>
      match mapME f l with
      | .error e => .error e
      | .ok bs => .ok (b :: bs)

def optNumToJVal : Option ℚ → JVal
  | none => .jnull
  | some q => .jnum q

def optStrToJVal : Option String → JVal
  | none => .jnull
  | some s => .jstr s

/-- The `for (const key of ...FIELDS) record[key] = toNumber(record[key], _)`
loops of `normaliseLeagueTableEntry`. -/
def coerceNumberFields (keys : List String) (allowNull : Bool)
    (record : List (String × JVal)) : Except String (List (String × JVal)) :=
  foldlME
    (fun rec key =>
      (toNumber (getField rec key) allowNull).map
        (fun o => objSet rec key (optNumToJVal o)))
    record keys

/-- The notes-derived value for each outcome flag (the `switch` of
`normaliseLeagueTableEntry`). -/
def derivedFlag (key : String) (notes : Option String) : Bool :=
  if key = "wasRelegated" then noteWasRelegated notes
  else if key = "wasPromoted" then noteWasPromoted notes
  else if key = "isExpansionTeam" then noteIsExpansionTeam notes
  else if key = "wasReElected" then noteWasReElected notes
  else if key = "wasReprieved" then noteWasReprieved notes
  else false

/-- First boolean loop: a field that is not already a boolean is replaced
by its notes-derived value. -/
def deriveBooleanFields (record : List (String × JVal)) (notes : Option String) :
    List (String × JVal) :=
  BOOLEAN_FIELDS.foldl
    (fun rec key =>
      match getField rec key with
      | .jbool _ => rec
      | _ => objSet rec key (.jbool (derivedFlag key notes)))
    record

/-- Second boolean loop: `record[key] = toBoolean(record[key])`. -/
def coerceBooleanFields (record : List (String × JVal)) : List (String × JVal) :=
  BOOLEAN_FIELDS.foldl
    (fun rec key => objSet rec key (.jbool (toBoolean (getField rec key))))
    record

/-- The final object literal of `normaliseLeagueTableEntry`, reading the
listed fields of the processed record. -/
def finalEntryFields (rec4 : List (String × JVal)) : List (String × JVal) :=
  [("pos", getField rec4 "pos"), ("team", getField rec4 "team"),
   ("played", getField rec4 "played"), ("won", getField rec4 "won"),
   ("drawn", getField rec4 "drawn"), ("lost", getField rec4 "lost"),
   ("goalsFor", getField rec4 "goalsFor"),
   ("goalsAgainst", getField rec4 "goalsAgainst"),
   ("goalDifference", getField rec4 "goalDifference"),
   ("goalAverage", getField rec4 "goalAverage"),
   ("points", getField rec4 "points"), ("notes", getField rec4 "notes"),
   ("wasRelegated", getField rec4 "wasRelegated"),
   ("wasPromoted", getField rec4 "wasPromoted"),
   ("isExpansionTeam", getField rec4 "isExpansionTeam"),
   ("wasReElected", getField rec4 "wasReElected"),
   ("wasReprieved", getField rec4 "wasReprieved")]

/-- `normaliseLeagueTableEntry(raw)` of `generate-output-files.js`.
The JS binds `record = {...raw}` and `notes = toStringValue(record.notes)`
up front; here those bindings are written inline. -/
def normaliseLeagueTableEntry (raw : JVal) : Except String JVal :=
  if !(truthy raw && typeofObject raw) then
    .error "Expected an object to normalise LeagueTableEntry"
  else
    match coerceNumberFields NUMBER_FIELDS false (spreadToObj raw) with
    | .error e => .error e
    | .ok rec1 =>
      match coerceNumberFields OPTIONAL_NUMBER_FIELDS true rec1 with
      | .error e => .error e
      | .ok rec2 =>
        match toStringValue (getField rec2 "team") with
        | none => .error "League table entry is missing a team name"
        | some teamName =>
          .ok (.jobj (finalEntryFields (coerceBooleanFields (deriveBooleanFields
            (objSet (objSet rec2 "team" (.jstr teamName)) "notes"
              (optStrToJVal (toStringValue (getField (spreadToObj raw) "notes"))))
            (toStringValue (getField (spreadToObj raw) "notes"))))))

/-- `sanitizeRows(rows)`: drop non-object rows and rows without a team
name; trim the team name on the kept rows. -/
def sanitizeRows (rows : JVal) : List JVal :=
  (match rows with
    | .jarr xs => xs
    | _ => ([] : List JVal)).filterMap
    (fun row =>
      if truthy row && typeofObject row then
        match toStringValue (getF row "team") with
        | none => none
        | some teamName =>
          some (.jobj (objSet (spreadToObj row) "team" (.jstr teamName)))
      else none)

def addUniqueJ (l : List JVal) (v : JVal) : List JVal :=
  if v ∈ l then l else l ++ [v]

/-- `normaliseOutcomeList(value, fallbackRows, flag)`: the explicit list's
(deduplicated, non-blank) names; only when that set is empty are the names
of rows with the given flag collected instead. -/
def normaliseOutcomeList (value : JVal) (fallbackRows : List JVal) (flag : String) :
    List JVal :=
  let results :=
    match value with
    | .jarr entries =>
      entries.foldl
        (fun acc entry =>
          match toStringValue entry with
          | some name => addUniqueJ acc (.jstr name)
          | none => acc)
        []
    | _ => []
  if results.isEmpty && !fallbackRows.isEmpty then
    fallbackRows.foldl
      (fun acc row =>
        if truthy (getF row flag) && (toStringValue (getF row "team")).isSome then
          addUniqueJ acc (getF row "team")
        else acc)
      results
  else results

def isTierData : JVal → Bool
  | .jobj fs => hasKey fs "season" && hasKey fs "table"
  | _ => false

/-- `normaliseTierData(tierValue, seasonKey)`. -/
def normaliseTierData (tierValue : JVal) (seasonKey : String) :
    Except String JVal := do
  let table := sanitizeRows (getF tierValue "table")
  let normalisedTable ← mapME normaliseLeagueTableEntry table
  let seasonRaw := getF tierValue "season"
  let seasonArg := if looseNull seasonRaw then JVal.jstr seasonKey else seasonRaw
  let parsedSeason := jsParseInt (jsToString seasonArg)
  let fallbackSeason := jsParseInt seasonKey
  let season : Int :=
    match parsedSeason with
    | some n => n
    | none => match fallbackSeason with
      | some n => n
      | none => 0
  let extra :=
    removeKey (removeKey (removeKey (removeKey (spreadToObj tierValue)
      "table") "season") "relegated") "promoted"
  pure (.jobj (objSet (objSet (objSet (objSet extra
    "season" (.jnum (season : ℚ)))
    "table" (.jarr normalisedTable))
    "relegated" (.jarr (normaliseOutcomeList (getF tierValue "relegated")
      normalisedTable "wasRelegated")))
    "promoted" (.jarr (normaliseOutcomeList (getF tierValue "promoted")
      normalisedTable "wasPromoted"))))

/-- `normaliseSeasonRecord(seasonValue, seasonKey)`. -/
def normaliseSeasonRecord (seasonValue : JVal) (seasonKey : String) :
    Except String JVal := do
  let entries :=
    if truthy seasonValue && typeofObject seasonValue then entriesOf seasonValue
    else []
  let fs ← foldlME
    (fun acc kv => do
      let (tierKey, tierValue) := kv
      if isArr tierValue then
        let rows ← mapME normaliseLeagueTableEntry (sanitizeRows tierValue)
        pure (objSet acc tierKey (.jarr rows))
      else if isTierData tierValue then
        pure (objSet acc tierKey (← normaliseTierData tierValue seasonKey))
      else if truthy tierValue && typeofObject tierValue then
        pure (objSet acc tierKey (← normaliseTierData tierValue seasonKey))
      else pure acc)
    ([] : List (String × JVal)) entries
  pure (.jobj fs)

/-- `createFootballData(initial)`.  (`loadFootballData` is this applied to
the parsed JSON of a file; the file I/O is outside the core.)  `entriesOf`
returns `[]` for primitive `seasonsSource` values, whose entries the JS
loop would anyway skip as non-objects. -/
def hasSeasonsKey : JVal → Bool
  | .jobj fs => hasKey fs "seasons"
  | _ => false

/-- The `seasonsSource` selection at the top of `createFootballData`. -/
def seasonsSourceOf (initial : JVal) : JVal :=
  if truthy initial && typeofObject initial && hasSeasonsKey initial then
    getF initial "seasons"
  else if truthy initial then initial
  else .jobj []

def createFootballData (initial : JVal) : Except String JVal := do
  let seasonsSource := seasonsSourceOf initial
  let fs ← foldlME
    (fun acc kv =>
      if truthy kv.2 && typeofObject kv.2 then do
        pure (objSet acc kv.1 (← normaliseSeasonRecord kv.2 kv.1))
      else pure acc)
    ([] : List (String × JVal)) (entriesOf seasonsSource)
  pure (.jobj [("seasons", .jobj fs)])

/-- `buildTierData(season, tableRows, options)` with the options spelled
out as three values (`options.promoted`, `options.relegated`,
`options.metadata`; an absent option is `undefined`). -/
def buildTierData (season : JVal) (tableRows : JVal)
    (promotedOpt relegatedOpt metadataOpt : JVal) : Except String JVal := do
  let seasonNumber := jsParseInt (jsToString season)
  let safeSeason : Int := seasonNumber.getD 0
  let sanitizedRows := sanitizeRows tableRows
  let normalizedTable ← mapME normaliseLeagueTableEntry sanitizedRows
  let promoted := normaliseOutcomeList promotedOpt normalizedTable "wasPromoted"
  let relegated := normaliseOutcomeList relegatedOpt normalizedTable "wasRelegated"
  let tierData : List (String × JVal) :=
    [("season", .jnum (safeSeason : ℚ)), ("table", .jarr normalizedTable),
     ("promoted", .jarr promoted), ("relegated", .jarr relegated)]
  let final :=
    if truthy metadataOpt && typeofObject metadataOpt then
      ((entriesOf metadataOpt).filter
        (fun kv => kv.1 ≠ "season" && kv.1 ≠ "table")).foldl
        (fun acc kv => objSet acc kv.1 kv.2) tierData
    else tierData
  pure (.jobj final)

/-! ## `wikipedia/combine-output-files.js` (the DatasetMerger) -/

def WAR_YEAR_SPANS : List (Int × Int) := [(1915, 1918), (1940, 1945)]

/-- `parseSeasonKey(seasonKey)` (`NaN` is `none`). -/
def parseSeasonKey (seasonKey : String) : Option Int :=
  jsParseInt seasonKey

def isWarSuspensionSeason (seasonKey : String) : Bool :=
  match parseSeasonKey seasonKey with
  | none => false
  | some numeric => WAR_YEAR_SPANS.any (fun p => p.1 ≤ numeric && numeric ≤ p.2)

/-- `blockHasData(block)`: a non-empty raw row array, or a tier object with
a non-empty table / promoted / relegated list or non-empty
`seasonMetadata`. -/
def blockHasData (block : JVal) : Bool :=
  if !truthy block then false
  else
    match block with
    | .jarr xs => !xs.isEmpty
    | .jobj fs =>
      let table := match getField fs "table" with | .jarr xs => xs | _ => []
      let promoted := match getField fs "promoted" with | .jarr xs => xs | _ => []
      let relegated := match getField fs "relegated" with | .jarr xs => xs | _ => []
      if !table.isEmpty || !promoted.isEmpty || !relegated.isEmpty then true
      else
        let metadata := getField fs "seasonMetadata"
        truthy metadata && typeofObject metadata && keysCount metadata ≠ 0
    | _ => false

def seasonHasData (seasonRecord : JVal) : Bool :=
  if !(truthy seasonRecord && typeofObject seasonRecord) then false
  else ((entriesOf seasonRecord).map (fun kv => kv.2)).any blockHasData

def tierHasData (tierValue : JVal) : Bool :=
  blockHasData tierValue

/-- `mergeTier(existingTier, incomingTier, includeEmpty)`. -/
def mergeTier (existingTier incomingTier : JVal) (includeEmpty : Bool) : JVal :=
  if !truthy existingTier then incomingTier
  else if !truthy incomingTier then
    (if includeEmpty then incomingTier else existingTier)
  else
    let existingHasData := tierHasData existingTier
    let incomingHasData := tierHasData incomingTier
    if !existingHasData && incomingHasData then incomingTier
    else if !incomingHasData then
      (if includeEmpty then incomingTier else existingTier)
    else existingTier

/-- `TIER_KEY_PATTERN = /^tier/i`. -/
def isTierKey (key : String) : Bool :=
  listStartsWith (strLower key).toList "tier".toList

/-- The `for (const [key, incomingValue] of Object.entries(incomingRecord))`
loop body of `mergeSeasonRecords`. -/
def mergeRecordEntries (merged : List (String × JVal))
    (incomingEntries : List (String × JVal)) (includeEmpty : Bool) :
    List (String × JVal) :=
  incomingEntries.foldl
    (fun acc kv =>
      if isTierKey kv.1 then
        objSet acc kv.1 (mergeTier (getField acc kv.1) kv.2 includeEmpty)
      else if !hasKey acc kv.1 || looseNull (getField acc kv.1) then
        objSet acc kv.1 kv.2
      else acc)
    merged

/-- `mergeSeasonRecords(currentRecord, incomingRecord, includeEmpty)`. -/
def mergeSeasonRecords (currentRecord incomingRecord : JVal)
    (includeEmpty : Bool) : JVal :=
  if !(truthy currentRecord && typeofObject currentRecord) then incomingRecord
  else if !(truthy incomingRecord && typeofObject incomingRecord) then
    currentRecord
  else
    .jobj (mergeRecordEntries (spreadToObj currentRecord)
      (entriesOf incomingRecord) includeEmpty)

/-- The per-row body of `normaliseGoalDifferences`: when `goalsFor` and
`goalsAgainst` are both (finite) numbers, set
`goalDifference = goalsFor - goalsAgainst`. -/
def ngdRow (row : JVal) : JVal :=
  if !(truthy row && typeofObject row) then row
  else
    match getF row "goalsFor", getF row "goalsAgainst" with
    | .jnum gf, .jnum ga =>
      (match row with
        | .jobj fs => .jobj (objSet fs "goalDifference" (.jnum (gf - ga)))
        | _ => row)
    | _, _ => row

/-- Per-tier body of `normaliseGoalDifferences`: the table is the tier
itself when it is a bare array, else its `table` field when that is an
array; anything else is left untouched. -/
def ngdTier (tierValue : JVal) : JVal :=
  match tierValue with
  | .jarr rows => .jarr (rows.map ngdRow)
  | .jobj fs =>
    (match getField fs "table" with
      | .jarr rows => .jobj (objSet fs "table" (.jarr (rows.map ngdRow)))
      | _ => .jobj fs)
  | v => v

def ngdRecord (seasonRecord : JVal) : JVal :=
  if !(truthy seasonRecord && typeofObject seasonRecord) then seasonRecord
  else
    match seasonRecord with
    | .jobj fs => .jobj (fs.map (fun kv => (kv.1, ngdTier kv.2)))
    | .jarr xs => .jarr (xs.map ngdTier)
    | v => v

def ngdSeasons : JVal → JVal
  | .jobj gs => .jobj (gs.map (fun kv => (kv.1, ngdRecord kv.2)))
  | .jarr xs => .jarr (xs.map ngdRecord)
  | v => v

/-- `normaliseGoalDifferences(dataset)` (the JS mutates in place; this is
the same transformation functionally). -/
def normaliseGoalDifferences (dataset : JVal) : JVal :=
  if !truthy dataset || !truthy (getF dataset "seasons") then dataset
  else
    match dataset with
    | .jobj fs =>
      .jobj (fs.map (fun kv =>
        if kv.1 = "seasons" then (kv.1, ngdSeasons kv.2) else kv))
    | v => v

/-- The `for (const [seasonKey, seasonValue] of Object.entries(incoming.seasons))`
loop of `combineFootballDataFiles`. -/
def mergeIncomingSeasons (acc : List (String × JVal))
    (incomingSeasons : List (String × JVal)) (includeEmpty : Bool) :
    List (String × JVal) :=
  incomingSeasons.foldl
    (fun acc2 kv =>
      let existingRecord := getField acc2 kv.1
      if !truthy existingRecord then objSet acc2 kv.1 kv.2
      else objSet acc2 kv.1 (mergeSeasonRecords existingRecord kv.2 includeEmpty))
    acc

/-- `combineFootballDataFiles({inputs, includeEmpty})`: the pure pipeline,
with each input given as its parsed JSON value (`loadFootballData` =
`createFootballData` over that value) and the returned value being the
final dataset written to disk.  Path resolution, file existence checks and
the diagnostic `stats` are I/O / reporting outside the claims. -/
def combineFootballDataFiles (inputs : List JVal) (includeEmpty : Bool) :
    Except String JVal := do
  if inputs.isEmpty then
    .error "At least one input file must be provided."
  else
    let seasons ← foldlME
      (fun acc input => do
        let incoming ← createFootballData input
        pure (mergeIncomingSeasons acc
          (entriesOf (getF incoming "seasons")) includeEmpty))
      ([] : List (String × JVal)) inputs
    let nonWarSeasonEntries := seasons.filter (fun kv => !isWarSuspensionSeason kv.1)
    let filteredSeasonEntries :=
      if includeEmpty then nonWarSeasonEntries
      else nonWarSeasonEntries.filter (fun kv => seasonHasData kv.2)
    let finalDataset ← createFootballData (.jobj [("seasons", .jobj filteredSeasonEntries)])
    pure (normaliseGoalDifferences finalDataset)

/-! ## `rsssf/parse-page.js` (the FixedWidthTableParser) -/

/-- `toTitleCase` from `utils.js`. -/
def toTitleCase (s : String) : String :=
  match s.toList with
  | [] => ""
  | c :: rest => String.mk (c.toUpper :: rest.map Char.toLower)

/-- `isFirstDivision` from `utils.js`. -/
def isFirstDivisionLabel (division : String) : Bool :=
  strHas (strLower division) "first"

def STAT_COLUMN_COUNT : Nat := 13

def MIN_STAT_COLUMN_COUNT : Nat := 12

/-- `NUMERIC_TOKEN = /^-?\d+$/`. -/
def isNumericToken (s : String) : Bool :=
  match s.toList with
  | '-' :: rest => !rest.isEmpty && rest.all Char.isDigit
  | cs => !cs.isEmpty && cs.all Char.isDigit

/-- `findStatsStart(tokens)`: the first index at which a run of 13 (else
12) consecutive purely-numeric tokens starts, with the run length. -/
def findStatsStart (tokens : List String) : Option (Nat × Nat) :=
  let n := tokens.length
  let check : Nat → Nat → Bool := fun i len =>
    decide ((i : Int) ≤ (n : Int) - (len : Int)) &&
      ((tokens.drop i).take len).all isNumericToken
  (List.range n).findSome? (fun i =>
    if check i STAT_COLUMN_COUNT then some (i, STAT_COLUMN_COUNT)
    else if check i MIN_STAT_COLUMN_COUNT then some (i, MIN_STAT_COLUMN_COUNT)
    else none)

structure HomeAway where
  wins : Int
  draws : Int
  losses : Int
  goalsFor : Int
  goalsAgainst : Int
deriving DecidableEq

structure OverallRec where
  played : Int
  wins : Int
  draws : Int
  losses : Int
  goalsFor : Int
  goalsAgainst : Int
  goalDifference : Int
deriving DecidableEq

structure RsssfStats where
  played : Int
  points : Int
  goalDifference : Int
  home : HomeAway
  away : HomeAway
  overall : OverallRec
deriving DecidableEq

/-- `parseStats(tokens)`: 13 columns are
`P W D L F A W D L F A GD Pts`; with 12 columns `GD` is omitted and
recomputed as `(homeGF+awayGF) − (homeGA+awayGA)`. -/
def parseStats (tokens : List String) : Option RsssfStats :=
  let values := tokens.map jsParseInt
  if values.any (fun v => v.isNone) then none
  else
    let build : Int → Int → Int → Int → Int → Int → Int → Int → Int → Int →
        Int → Int → Int → RsssfStats := fun p hw hd hl hgf hga aw ad al agf aga gd pts =>
      let overallWins := hw + aw
      let overallDraws := hd + ad
      let overallLosses := hl + al
      let overallGoalsFor := hgf + agf
      let overallGoalsAgainst := hga + aga
      { played := p, points := pts, goalDifference := gd,
        home := { wins := hw, draws := hd, losses := hl,
                  goalsFor := hgf, goalsAgainst := hga },
        away := { wins := aw, draws := ad, losses := al,
                  goalsFor := agf, goalsAgainst := aga },
        overall := { played := overallWins + overallDraws + overallLosses,
                     wins := overallWins, draws := overallDraws,
                     losses := overallLosses, goalsFor := overallGoalsFor,
                     goalsAgainst := overallGoalsAgainst,
                     goalDifference := overallGoalsFor - overallGoalsAgainst } }
    match values.map (fun v => v.getD 0) with
    | [p, hw, hd, hl, hgf, hga, aw, ad, al, agf, aga, gd, pts] =>
      some (build p hw hd hl hgf hga aw ad al agf aga gd pts)
    | [p, hw, hd, hl, hgf, hga, aw, ad, al, agf, aga, pts] =>
      some (build p hw hd hl hgf hga aw ad al agf aga
        (hgf + agf - (hga + aga)) pts)
    | _ => none

/-- One parsed RSSSF table row.  `wasPromoted`/`wasRelegated` are
`Option Bool` so that the later `row.wasPromoted ?? …` nullish coalescing
is transcribed exactly (`parseTableRow` always stores `some _`).  The
`meta` sub-object is flattened to the fields used downstream. -/
structure RsssfRow where
  pos : Int
  team : String
  played : Int
  won : Int
  drawn : Int
  lost : Int
  goalsFor : Int
  goalsAgainst : Int
  goalDifference : Int
  goalAverage : Option Int
  points : Int
  notes : Option String
  wasRelegated : Option Bool
  wasPromoted : Option Bool
  isExpansionTeam : Bool
  wasReElected : Bool
  wasReprieved : Bool
  homeRecord : HomeAway
  awayRecord : HomeAway
  overallRecord : OverallRec
  markers : List String
  highlighted : Bool
deriving DecidableEq

/-- `parseTableRow(line, estPositions, isFirstDivision)`. -/
def parseTableRow (line : String) (estPositions : Nat) (isFirstDiv : Bool) :
    Option RsssfRow :=
  let trimmed := strTrim line
  if trimmed = "" then none
  else
    let tokens := strTokens trimmed
    if tokens.length < MIN_STAT_COLUMN_COUNT + 1 then none
    else
      let positionToken := tokens.headD ""
      let restTokens := tokens.drop 1
      match findStatsStart restTokens with
      | none => none
      | some (idx, len) =>
        let teamTokens := restTokens.take idx
        let statTokens := (restTokens.drop idx).take len
        let trailingTokens := restTokens.drop (idx + len)
        let team := strTrim (String.intercalate " " teamTokens)
        if team = "" then none
        else
          match jsParseInt (String.mk (positionToken.toList.filter Char.isDigit)) with
          | none => none
          | some position =>
            match parseStats statTokens with
            | none => none
            | some stats =>
              let markers := trailingTokens.filter (fun t => t ≠ "")
              let isHighlighted := team = strUpper team && team.length > 1
              let isCandidate := team = strUpper team
              let isTopHalf : Int → Bool := fun pos =>
                decide (pos ≤ ((estPositions / 2 : Nat) : Int))
              some
                { pos := position, team := team, played := stats.played,
                  won := stats.overall.wins, drawn := stats.overall.draws,
                  lost := stats.overall.losses,
                  goalsFor := stats.overall.goalsFor,
                  goalsAgainst := stats.overall.goalsAgainst,
                  goalDifference := stats.goalDifference, goalAverage := none,
                  points := stats.points, notes := none,
                  wasRelegated := some (isCandidate && !isTopHalf position),
                  wasPromoted :=
                    some (!isFirstDiv && isCandidate && isTopHalf position),
                  isExpansionTeam := false, wasReElected := false,
                  wasReprieved := false, homeRecord := stats.home,
                  awayRecord := stats.away, overallRecord := stats.overall,
                  markers := markers, highlighted := isHighlighted }

structure RsssfNote where
  symbol : String
  text : String
deriving DecidableEq

def NOTE_MARKER_CHARS : List Char := ['+', '*', '#', '@', '^']

/-- `parseNoteLine(line)`. -/
def parseNoteLine (line : String) : RsssfNote :=
  let trimmed := strTrim line
  let symbol := String.mk (trimmed.toList.takeWhile (fun c => c ∈ NOTE_MARKER_CHARS))
  if symbol = "" then { symbol := "+", text := trimmed }
  else
    { symbol := symbol,
      text := strTrim (String.mk (trimmed.toList.drop symbol.toList.length)) }

/-- `isTableDataLine(line) = /^\s*\d+/.test(line)`. -/
def isTableDataLine (line : String) : Bool :=
  match line.toList.dropWhile isWsChar with
  | c :: _ => c.isDigit
  | [] => false

/-- `/\r\n?/g → '\n'`. -/
def normNewlines : List Char → List Char
  | [] => []
  | '\r' :: '\n' :: rest => '\n' :: normNewlines rest
  | '\r' :: rest => '\n' :: normNewlines rest
  | c :: rest => c :: normNewlines rest

/-- The statistics-header test
`/\bP\s+W\s+D\s+L\s+F\s+A\s+W\s+D\s+L\s+F\s+A\b/i`, modelled as: the
whitespace tokens of the line contain that sequence of eleven
single-letter tokens (case-insensitively). -/
def headerLineTest (line : String) : Bool :=
  listHasRun ["P", "W", "D", "L", "F", "A", "W", "D", "L", "F", "A"]
    ((strTokens line).map strUpper)

/-- The row/footnote scanning loop of `parseCompetitionBlock` (lines after
the stats header): blank lines are skipped, `<hr>` stops, marker-prefixed
lines are footnotes, non-data lines stop, a data line that fails to parse
stops. -/
def collectRows (estLen : Nat) (isFirstDiv : Bool) :
    List String → List RsssfNote × List RsssfRow
  | [] => ([], [])
  | line :: rest =>
    let trimmed := strTrim line
    if trimmed = "" then collectRows estLen isFirstDiv rest
    else if listStartsWith (strLower trimmed).toList "<hr>".toList then ([], [])
    else if (match trimmed.toList with
        | c :: _ => decide (c ∈ NOTE_MARKER_CHARS)
        | [] => false) then
      let acc := collectRows estLen isFirstDiv rest
      (parseNoteLine trimmed :: acc.1, acc.2)
    else if !isTableDataLine trimmed then ([], [])
    else
      match parseTableRow line estLen isFirstDiv with
      | some row =>
        let acc := collectRows estLen isFirstDiv rest
        (acc.1, row :: acc.2)
      | none => ([], [])

/-- Association list used for the `noteLookup` Map. -/
def lookupNotes (lookup : List (String × List String)) (symbol : String) :
    Option (List String) :=
  (lookup.find? (fun kv => kv.1 = symbol)).map (fun kv => kv.2)

def setAssocNotes (lookup : List (String × List String)) (symbol : String)
    (texts : List String) : List (String × List String) :=
  match lookup with
  | [] => [(symbol, texts)]
  | kv :: rest =>
    if kv.1 = symbol then (symbol, texts) :: rest
    else kv :: setAssocNotes rest symbol texts

def buildNoteLookup (notes : List RsssfNote) : List (String × List String) :=
  notes.foldl
    (fun acc note =>
      let existing := (lookupNotes acc note.symbol).getD []
      setAssocNotes acc note.symbol (existing ++ [note.text]))
    []

/-- `NOTE_RE_RELEGATED` alternatives as substring tests on the lowered
notes. -/
def rsssfNoteRelegated (n : String) : Bool :=
  strHas n "relegat" || strHas n "demoted to the" || strHas n "dropped to the" ||
    strHas n "relegated to the" || strHas n "sent down to"

/-- `NOTE_RE_REPRIEVED = /reprie(?:v|e)d from re-?election/` — as written
this matches `"reprievd"`/`"repried"` followed by the phrase, never the
correctly spelled "reprieved". -/
def rsssfNoteReprieved (n : String) : Bool :=
  strHas n "reprievd from re-election" || strHas n "reprievd from reelection" ||
    strHas n "repried from re-election" || strHas n "repried from reelection"

def rsssfNoteExpansion (n : String) : Bool :=
  strHas n "expansion" || strHas n "new club" || strHas n "admitted" ||
    strHas n "joined league" || strHas n "first time in the league"

/-- The per-row post-processing in `parseCompetitionBlock`
(`processedRows = rows.map(...)`): attach footnote texts via the row's
markers, derive outcome signals from that text, and combine with the
structural flags by `??` (nullish coalescing). -/
def processRsssfRow (lookup : List (String × List String)) (row : RsssfRow) :
    RsssfRow :=
  let noteSymbols := row.markers
  let attachedNotes := noteSymbols.flatMap (fun s => (lookupNotes lookup s).getD [])
  let noteText : Option String :=
    if attachedNotes.isEmpty then none
    else some (String.intercalate " " attachedNotes)
  let loweredNotes := strLower (noteText.getD "")
  let promotedN := strHas loweredNotes "promot"
  let relegatedN := rsssfNoteRelegated loweredNotes
  let reElectedN := strHas loweredNotes "re-elected" || strHas loweredNotes "reelected"
  let reprievedN := rsssfNoteReprieved loweredNotes
  let expansionN := rsssfNoteExpansion loweredNotes
  { row with
    notes := noteText,
    wasPromoted := some (row.wasPromoted.getD promotedN),
    wasRelegated := some (row.wasRelegated.getD relegatedN),
    wasReElected := reElectedN,
    wasReprieved := reprievedN,
    isExpansionTeam := expansionN,
    team := toTitleCase row.team }

/-- Fuel-driven worker for `splitOnSeq`; the fuel is an upper bound on the
number of characters, so it never runs out on the wrapper's call. -/
def splitOnSeqF (sep : List Char) : Nat → List Char → List (List Char)
  | 0, cs => [cs]
  | _ + 1, [] => [[]]
  | n + 1, c :: cs =>
    if sep ≠ [] && listStartsWith (c :: cs) sep then
      [] :: splitOnSeqF sep n ((c :: cs).drop sep.length)
    else
      match splitOnSeqF sep n cs with
      | [] => [[c]]
      | g :: gs => (c :: g) :: gs

/-- Split a character list on every occurrence of a separator sequence
(JS `s.split(' - ')`). -/
def splitOnSeq (sep : List Char) (cs : List Char) : List (List Char) :=
  splitOnSeqF sep (cs.length + 1) cs

/-- Replace each whitespace run by a single dash
(JS replacing the regex "backslash-s plus" globally by a dash); the flag
tracks whether the previous character was whitespace. -/
def wsRunsToDashAux : Bool → List Char → List Char
  | _, [] => []
  | prevWs, c :: cs =>
    if isWsChar c then
      if prevWs then wsRunsToDashAux true cs
      else '-' :: wsRunsToDashAux true cs
    else c :: wsRunsToDashAux false cs

def wsRunsToDash (cs : List Char) : List Char :=
  wsRunsToDashAux false cs

structure HeadingInfo where
  heading : Option String
  league : Option String
  season : Option String
  seasonSlug : Option String
deriving DecidableEq

/-- `splitHeading(rawHeading)`. -/
def splitHeading (rawHeading : String) : HeadingInfo :=
  if rawHeading = "" then
    { heading := none, league := none, season := none, seasonSlug := none }
  else
    let trimmed := strTrim rawHeading
    let parts := (splitOnSeq [' ', '-', ' '] trimmed.toList).map String.mk
    match parts.reverse with
    | [] => { heading := some trimmed, league := some trimmed,
              season := none, seasonSlug := none }
    | [_] => { heading := some trimmed, league := some trimmed,
               season := none, seasonSlug := none }
    | last :: front =>
      let season := strTrim last
      let league := strTrim (String.intercalate " - " front.reverse)
      let digits := String.mk (season.toList.filter Char.isDigit |>.take 8)
      { heading := some trimmed, league := some league, season := some season,
        seasonSlug := some
          (if season = "" then ""
           else if digits ≠ "" then digits
           else String.mk (wsRunsToDash season.toList)) }

/-- Collapse runs of dashes to a single dash (the JS global replacement
of two-or-more dashes); the flag tracks whether the previous character was
a dash. -/
def collapseDashAux : Bool → List Char → List Char
  | _, [] => []
  | prevDash, c :: cs =>
    if c = '-' then
      if prevDash then collapseDashAux true cs
      else '-' :: collapseDashAux true cs
    else c :: collapseDashAux false cs

def collapseDashRuns (cs : List Char) : List Char :=
  collapseDashAux false cs

/-- `sanitiseSeasonSlug(season)`. -/
def sanitiseSeasonSlug (season : Option String) : Option String :=
  match season with
  | none => none
  | some s =>
    let cleaned :=
      (s.toList.filter (fun c => c.isDigit || c = '/' || c = '\\' || c = '-')).map
        (fun c => if c = '/' || c = '\\' then '-' else c)
    if cleaned.isEmpty then none
    else
      let condensed :=
        (((collapseDashRuns cleaned).dropWhile (fun c => c = '-')).reverse.dropWhile
          (fun c => c = '-')).reverse
      if condensed.isEmpty then none else some (String.mk condensed)

structure RsssfCompetition where
  heading : Option String
  league : Option String
  season : Option String
  seasonSlug : Option String
  notes : List RsssfNote
  rows : List RsssfRow
deriving DecidableEq

/-- `parseCompetitionBlock(text, isFirstDivision)`. -/
def parseCompetitionBlock (text : String) (isFirstDiv : Bool) :
    Option RsssfCompetition :=
  let lines := (splitOnChar '\n' (normNewlines text.toList)).map String.mk
  match lines.findIdx? (fun line => strTrim line ≠ "") with
  | none => none
  | some firstContentIndex =>
    let headingLine := strTrim (lines.getD firstContentIndex "")
    match (lines.enum.find? (fun p =>
        decide (p.1 > firstContentIndex) && headerLineTest p.2)).map Prod.fst with
    | none => none
    | some headerIndex =>
      let scanned := collectRows lines.length isFirstDiv (lines.drop (headerIndex + 1))
      let notes := scanned.1
      let rows := scanned.2
      if rows.isEmpty then none
      else
        let noteLookup := buildNoteLookup notes
        let processedRows := rows.map (processRsssfRow noteLookup)
        let headingInfo := splitHeading headingLine
        some
          { heading := headingInfo.heading, league := headingInfo.league,
            season := headingInfo.season,
            seasonSlug :=
              (match sanitiseSeasonSlug headingInfo.season with
                | some slug => some slug
                | none => headingInfo.seasonSlug),
            notes := notes, rows := processedRows }

/-! ## Legend application (`parse-ext-season-overview-pages.js` and
`parse-division-table.js`) -/

structure LegendEntry where
  promoted : Bool
  relegated : Bool
deriving DecidableEq

/-- The outcome flags of a parsed wiki row that `applyLegendStatuses`
touches (the full row object carries more fields, none of which the
function reads or writes). -/
structure WikiRowFlags where
  wasPromoted : Bool
  wasRelegated : Bool
deriving DecidableEq

def lookupLegend (m : List (String × LegendEntry)) (symbol : String) :
    Option LegendEntry :=
  (m.find? (fun kv => kv.1 = symbol)).map (fun kv => kv.2)

/-- `applyLegendStatuses($, teamCell, row, legendMap)` from
`parse-ext-season-overview-pages.js`; the DOM symbol extraction
(`extractLegendSymbols`) is abstracted as the input symbol list. -/
def applyLegendStatuses (legendMap : Option (List (String × LegendEntry)))
    (symbols : List String) (row : WikiRowFlags) : WikiRowFlags :=
  match legendMap with
  | none => row
  | some m =>
    symbols.foldl
      (fun r symbol =>
        match lookupLegend m symbol with
        | none => r
        | some entry =>
          let r1 := if entry.promoted then { r with wasPromoted := true } else r
          if entry.relegated then { r1 with wasRelegated := true } else r1)
      row

/-- `applyLegendStatuses($, teamCell, row, legendMap, division)` from
`parse-division-table.js`: identical except that promotion is suppressed
for a first-division table. -/
def applyLegendStatusesDiv (legendMap : Option (List (String × LegendEntry)))
    (symbols : List String) (row : WikiRowFlags) (division : String) :
    WikiRowFlags :=
  match legendMap with
  | none => row
  | some m =>
    let suppressPromotion := isFirstDivisionLabel division
    symbols.foldl
      (fun r symbol =>
        match lookupLegend m symbol with
        | none => r
        | some entry =>
          let r1 :=
            if entry.promoted && !suppressPromotion then
              { r with wasPromoted := true }
            else r
          if entry.relegated then { r1 with wasRelegated := true } else r1)
      row

/-! ## Association-list and fold infrastructure lemmas -/

theorem getField_objSet (fs : List (String × JVal)) (k k' : String) (v : JVal) :
    getField (objSet fs k v) k' = if k = k' then v else getField fs k' := by
  induction fs with
  | nil => simp [objSet, getField]
  | cons f rest ih =>
    obtain ⟨k0, v0⟩ := f
    by_cases h0 : k0 = k
    · subst h0
      by_cases h1 : k0 = k' <;> simp [objSet, getField, h1]
    · simp only [objSet, if_neg h0, getField]
      by_cases h1 : k0 = k'
      · have hkk : ¬(k = k') := fun hc => h0 (hc ▸ h1)
        simp [h1, hkk]
      · simp [h1, ih]

theorem hasKey_iff_mem_keys (fs : List (String × JVal)) (k : String) :
    hasKey fs k = true ↔ k ∈ fs.map Prod.fst := by
  induction fs with
  | nil => simp [hasKey]
  | cons f rest ih =>
    simp only [hasKey, List.any_cons, Bool.or_eq_true, decide_eq_true_eq,
      List.map_cons, List.mem_cons]
    rw [hasKey] at ih
    rw [ih]
    constructor
    · rintro (h | h)
      · exact Or.inl h.symm
      · exact Or.inr h
    · rintro (h | h)
      · exact Or.inl h.symm
      · exact Or.inr h

theorem keys_objSet_of_hasKey (fs : List (String × JVal)) (k : String) (v : JVal)
    (h : hasKey fs k = true) :
    (objSet fs k v).map Prod.fst = fs.map Prod.fst := by
  induction fs with
  | nil => simp [hasKey] at h
  | cons f rest ih =>
    obtain ⟨k0, v0⟩ := f
    by_cases h0 : k0 = k
    · subst h0; simp [objSet]
    · simp only [hasKey, List.any_cons] at h
      rcases Bool.or_eq_true_iff.mp h with hbad | h
      · exact absurd (of_decide_eq_true hbad) h0
      · simp [objSet, h0, ih h]

theorem objSet_of_not_hasKey (fs : List (String × JVal)) (k : String) (v : JVal)
    (h : hasKey fs k = false) : objSet fs k v = fs ++ [(k, v)] := by
  induction fs with
  | nil => simp [objSet]
  | cons f rest ih =>
    obtain ⟨k0, v0⟩ := f
    simp only [hasKey, List.any_cons, Bool.or_eq_false_iff] at h
    have h0 : k0 ≠ k := by
      intro hc
      simp [hc] at h
    simp [objSet, h0, ih (by simpa [hasKey] using h.2)]

theorem objSet_self_of_getField (fs : List (String × JVal)) (k : String) (v : JVal)
    (hk : hasKey fs k = true) (hv : getField fs k = v) : objSet fs k v = fs := by
  induction fs with
  | nil => simp [hasKey] at hk
  | cons f rest ih =>
    obtain ⟨k0, v0⟩ := f
    by_cases h0 : k0 = k
    · subst h0
      have hv' : v0 = v := by simpa [getField] using hv
      simp [objSet, hv']
    · simp only [hasKey, List.any_cons] at hk
      rcases Bool.or_eq_true_iff.mp hk with hbad | hk
      · exact absurd (of_decide_eq_true hbad) h0
      · simp only [getField, if_neg h0] at hv
        simp [objSet, h0, ih (by simpa [hasKey] using hk) hv]

theorem getField_of_mem_nodup (fs : List (String × JVal)) (k : String) (v : JVal)
    (hnd : (fs.map Prod.fst).Nodup) (hmem : (k, v) ∈ fs) : getField fs k = v := by
  induction fs with
  | nil => simp at hmem
  | cons f rest ih =>
    obtain ⟨k0, v0⟩ := f
    simp only [List.map_cons, List.nodup_cons] at hnd
    rcases List.mem_cons.mp hmem with h | h
    · obtain ⟨hk, hv⟩ := Prod.mk.injEq .. ▸ h
      simp_all [getField]
    · have h0 : k0 ≠ k := by
        intro hc
        exact hnd.1 (hc ▸ (List.mem_map.mpr ⟨(k, v), h, rfl⟩))
      simp [getField, h0, ih hnd.2 h]

theorem dedupeFields_aux (fs acc : List (String × JVal))
    (hnd : (acc.map Prod.fst ++ fs.map Prod.fst).Nodup) :
    fs.foldl (fun a f => objSet a f.1 f.2) acc = acc ++ fs := by
  induction fs generalizing acc with
  | nil => simp
  | cons f rest ih =>
    obtain ⟨k0, v0⟩ := f
    have hdisj := (List.nodup_append.mp hnd).2.2
    have hk : hasKey acc k0 = false := by
      rw [← Bool.not_eq_true, hasKey_iff_mem_keys]
      intro hmem
      exact hdisj hmem (by simp)
    have hstep : objSet acc k0 v0 = acc ++ [(k0, v0)] :=
      objSet_of_not_hasKey acc k0 v0 hk
    have hnd' : ((acc ++ [(k0, v0)]).map Prod.fst ++ rest.map Prod.fst).Nodup := by
      simpa [List.append_assoc] using hnd
    calc ((k0, v0) :: rest).foldl (fun a f => objSet a f.1 f.2) acc
        = rest.foldl (fun a f => objSet a f.1 f.2) (acc ++ [(k0, v0)]) := by
          simp [List.foldl_cons, hstep]
      _ = (acc ++ [(k0, v0)]) ++ rest := ih (acc ++ [(k0, v0)]) hnd'
      _ = acc ++ (k0, v0) :: rest := by simp

theorem dedupeFields_eq_self (fs : List (String × JVal))
    (hnd : (fs.map Prod.fst).Nodup) : dedupeFields fs = fs := by
  simpa [dedupeFields] using dedupeFields_aux fs [] (by simpa using hnd)

/-- Key-uniqueness of an object's field list. -/
def KeysNodup (fs : List (String × JVal)) : Prop :=
  (fs.map Prod.fst).Nodup

theorem KeysNodup_objSet (fs : List (String × JVal)) (k : String) (v : JVal)
    (h : KeysNodup fs) : KeysNodup (objSet fs k v) := by
  by_cases hk : hasKey fs k = true
  · unfold KeysNodup
    rw [keys_objSet_of_hasKey fs k v hk]
    exact h
  · unfold KeysNodup
    rw [objSet_of_not_hasKey fs k v (by simpa using hk)]
    simp only [List.map_append, List.map_cons, List.map_nil]
    rw [List.nodup_append]
    refine ⟨h, by simp, ?_⟩
    intro a ha hb
    simp only [List.mem_cons, List.not_mem_nil, or_false] at hb
    subst hb
    exact hk (by rw [hasKey_iff_mem_keys]; exact ha)

theorem except_bind_ok {α β : Type} {x : Except String α} {f : α → Except String β}
    {b : β} (h : (x >>= f) = .ok b) : ∃ a, x = .ok a ∧ f a = .ok b := by
  cases x with
  | error e => simp [Bind.bind, Except.bind] at h
  | ok a => exact ⟨a, rfl, by simpa [Bind.bind, Except.bind] using h⟩

theorem except_map_ok {α β : Type} {x : Except String α} {f : α → β} {b : β}
    (h : Except.map f x = .ok b) : ∃ a, x = .ok a ∧ f a = b := by
  cases x with
  | error e => simp [Except.map] at h
  | ok a => exact ⟨a, rfl, by simpa [Except.map] using h⟩

theorem foldlME_invariant {σ α : Type} (P : σ → Prop)
    (step : σ → α → Except String σ)
    (hstep : ∀ s a s', P s → step s a = .ok s' → P s') :
    ∀ (l : List α) (s0 s1 : σ), P s0 → foldlME step s0 l = .ok s1 → P s1 := by
  intro l
  induction l with
  | nil =>
    intro s0 s1 h0 h
    simp only [foldlME, Except.ok.injEq] at h
    exact h ▸ h0
  | cons a rest ih =>
    intro s0 s1 h0 h
    simp only [foldlME] at h
    cases hs : step s0 a with
    | error e => rw [hs] at h; exact absurd h (by simp)
    | ok s' =>
      rw [hs] at h
      exact ih s' s1 (hstep s0 a s' h0 hs) h

theorem mapME_ok_mem {α β : Type} (f : α → Except String β) :
    ∀ (l : List α) (out : List β), mapME f l = .ok out →
      ∀ b ∈ out, ∃ a ∈ l, f a = .ok b := by
  intro l
  induction l with
  | nil =>
    intro out h b hb
    simp only [mapME, Except.ok.injEq] at h
    subst h
    simp at hb
  | cons a rest ih =>
    intro out h b hb
    simp only [mapME] at h
    cases ha : f a with
    | error e => rw [ha] at h; exact absurd h (by simp)
    | ok b0 =>
      rw [ha] at h
      cases hrest : mapME f rest with
      | error e => rw [hrest] at h; exact absurd h (by simp)
      | ok bs =>
        rw [hrest] at h
        simp only [Except.ok.injEq] at h
        subst h
        rcases List.mem_cons.mp hb with hb | hb
        · exact ⟨a, by simp, hb ▸ ha⟩
        · obtain ⟨a', ha', hfa⟩ := ih bs hrest b hb
          exact ⟨a', by simp [ha'], hfa⟩

/-! ## Claim-property checkers and demonstration data -/

def isNumV : JVal → Bool
  | .jnum _ => true
  | _ => false

/-- The table rows of a tier value (what `normaliseGoalDifferences` walks:
the tier itself when a bare array, else its `table` array). -/
def tierTableOf (tierValue : JVal) : List JVal :=
  match tierValue with
  | .jarr rows => rows
  | .jobj fs =>
    (match getField fs "table" with
      | .jarr rows => rows
      | _ => [])
  | _ => []

def recordRowsOf (seasonRecord : JVal) : List JVal :=
  match seasonRecord with
  | .jobj fs => fs.flatMap (fun kv => tierTableOf kv.2)
  | .jarr xs => xs.flatMap tierTableOf
  | _ => []

/-- Every table row in every tier of every season of a dataset. -/
def datasetRowsOf (d : JVal) : List JVal :=
  match getF d "seasons" with
  | .jobj gs => gs.flatMap (fun kv => recordRowsOf kv.2)
  | .jarr xs => xs.flatMap recordRowsOf
  | _ => []

/-- The goal-difference invariant of one row:
`goalDifference == goalsFor - goalsAgainst` with all three numeric. -/
def rowGDInvariant (row : JVal) : Bool :=
  match getF row "goalsFor", getF row "goalsAgainst", getF row "goalDifference" with
  | .jnum gf, .jnum ga, .jnum gd => decide (gd = gf - ga)
  | _, _, _ => false

def rowHasNums (row : JVal) : Bool :=
  isNumV (getF row "goalsFor") && isNumV (getF row "goalsAgainst")

def datasetSeasonKeys (d : JVal) : List String :=
  match getF d "seasons" with
  | .jobj gs => gs.map Prod.fst
  | _ => []

def exceptIsError {α : Type} : Except String α → Bool
  | .error _ => true
  | .ok _ => false

def demoRow : JVal := .jobj [("team", .jstr "Everton")]

def demoTierFull : JVal :=
  .jobj [("season", .jnum 2000), ("table", .jarr [demoRow]),
         ("promoted", .jarr []), ("relegated", .jarr [])]

def demoTierEmpty : JVal :=
  .jobj [("season", .jnum 2000), ("table", .jarr []),
         ("promoted", .jarr []), ("relegated", .jarr [])]

def demoDataA : JVal :=
  .jobj [("seasons", .jobj [("2000", .jobj [("tier1", demoTierFull)])])]

def demoDataB : JVal :=
  .jobj [("seasons", .jobj [("2000", .jobj [("tier1", demoTierEmpty)])])]

def demoDataWar : JVal :=
  .jobj [("seasons", .jobj [("1915", .jobj [("tier1", .jarr [demoRow])])])]

def tierTeams (d : JVal) (seasonKey tierKey : String) : List JVal :=
  (tierTableOf (getF (getF (getF d "seasons") seasonKey) tierKey)).map
    (fun r => getF r "team")

theorem tierHasData_truthy (t : JVal) (h : tierHasData t = true) :
    truthy t = true := by
  cases t with
  | jundefined => exact absurd h (by decide)
  | jnull => exact absurd h (by decide)
  | jbool b =>
    cases b with
    | false => exact absurd h (by decide)
    | true => rfl
  | jnum q =>
    have hz : tierHasData (JVal.jnum q) = false := by
      rw [tierHasData, blockHasData]
      split
      all_goals try rfl
      all_goals exact fun _ h => nomatch h
    rw [hz] at h
    exact absurd h (by decide)
  | jstr s =>
    have hz : tierHasData (JVal.jstr s) = false := by
      rw [tierHasData, blockHasData]
      split
      all_goals try rfl
      all_goals exact fun _ h => nomatch h
    rw [hz] at h
    exact absurd h (by decide)
  | jarr xs => rfl
  | jobj fs => rfl

/-! ## C2: merge priority -/

/-- C2: per-tier merge priority: an absent incumbent tier is replaced by
the incoming tier; a dataless incumbent is replaced by an incoming tier
with data; when both tiers have data the incumbent (earlier input) wins.
Concretely, merging dataset A (season-2000 tier1 has the Everton row) with
dataset B (season-2000 tier1 empty) under the default `includeEmpty =
false` yields the Everton row in both input orders. -/
theorem c2_merge_tier_priority :
    (∀ (incoming : JVal) (ie : Bool), mergeTier .jundefined incoming ie = incoming) ∧
    (∀ (existing incoming : JVal) (ie : Bool),
      tierHasData existing = false → tierHasData incoming = true →
      mergeTier existing incoming ie = incoming) ∧
    (∀ (existing incoming : JVal) (ie : Bool),
      tierHasData existing = true → tierHasData incoming = true →
      mergeTier existing incoming ie = existing) ∧
    (combineFootballDataFiles [demoDataA, demoDataB] false).map
      (fun d => tierTeams d "2000" "tier1") = .ok [.jstr "Everton"] ∧
    (combineFootballDataFiles [demoDataB, demoDataA] false).map
      (fun d => tierTeams d "2000" "tier1") = .ok [.jstr "Everton"] := by
  refine ⟨fun incoming ie => rfl, ?_, ?_, rfl, rfl⟩
  · intro e i ie he hi
    have hti := tierHasData_truthy i hi
    by_cases hte : truthy e
    · simp [mergeTier, hte, hti, he, hi]
    · simp [mergeTier, hte]
  · intro e i ie he hi
    have hti := tierHasData_truthy i hi
    have hte := tierHasData_truthy e he
    simp [mergeTier, hte, hti, he, hi]

/-- Witness for C2 at concrete tiers. -/
theorem c2_merge_tier_priority_witness :
    mergeTier demoTierEmpty demoTierFull false = demoTierFull ∧
    mergeTier demoTierFull demoTierEmpty false = demoTierFull ∧
    mergeTier demoTierFull demoTierFull true = demoTierFull :=
  ⟨c2_merge_tier_priority.2.1 demoTierEmpty demoTierFull false (by decide)
      (by decide),
    by decide,
    c2_merge_tier_priority.2.2.1 demoTierFull demoTierFull true (by decide)
      (by decide)⟩

/-! ## C3: derived promoted/relegated lists -/

theorem mem_addUniqueJ {l : List JVal} {v w : JVal} :
    v ∈ addUniqueJ l w ↔ (v ∈ l ∨ v = w) := by
  unfold addUniqueJ
  split
  · rename_i hw
    constructor
    · exact fun h => Or.inl h
    · rintro (h | rfl)
      · exact h
      · exact hw
  · simp [List.mem_append]

/-- The explicitly supplied outcome names: the first phase of
`normaliseOutcomeList` (the claim's "explicit input" set). -/
def explicitOutcomeNames (value : JVal) : List JVal :=
  match value with
  | .jarr entries =>
    entries.foldl
      (fun acc entry =>
        match toStringValue entry with
        | some name => addUniqueJ acc (.jstr name)
        | none => acc)
      []
  | _ => []

theorem normaliseOutcomeList_eq (value : JVal) (rows : List JVal) (flag : String) :
    normaliseOutcomeList value rows flag =
      (if (explicitOutcomeNames value).isEmpty && !rows.isEmpty then
        rows.foldl
          (fun acc row =>
            if truthy (getF row flag) && (toStringValue (getF row "team")).isSome then
              addUniqueJ acc (getF row "team")
            else acc)
          (explicitOutcomeNames value)
      else explicitOutcomeNames value) := by
  cases value <;> rfl

theorem outcomeFold_mono (flag : String) (rows : List JVal) :
    ∀ (acc : List JVal) (v : JVal), v ∈ acc →
      v ∈ rows.foldl
        (fun acc row =>
          if truthy (getF row flag) && (toStringValue (getF row "team")).isSome then
            addUniqueJ acc (getF row "team")
          else acc)
        acc := by
  induction rows with
  | nil => intro acc v h; exact h
  | cons r rest ih =>
    intro acc v h
    simp only [List.foldl_cons]
    split
    · exact ih _ v (mem_addUniqueJ.mpr (Or.inl h))
    · exact ih _ v h

theorem outcomeFold_adds (flag : String) (rows : List JVal) :
    ∀ (acc : List JVal) (row : JVal), row ∈ rows →
      truthy (getF row flag) = true →
      (toStringValue (getF row "team")).isSome = true →
      getF row "team" ∈ rows.foldl
        (fun acc row =>
          if truthy (getF row flag) && (toStringValue (getF row "team")).isSome then
            addUniqueJ acc (getF row "team")
          else acc)
        acc := by
  induction rows with
  | nil => intro acc row h; simp at h
  | cons r rest ih =>
    intro acc row hmem ht hs
    rcases List.mem_cons.mp hmem with rfl | hmem
    · simp only [List.foldl_cons, ht, hs, Bool.and_self, if_pos]
      exact outcomeFold_mono flag rest _ _ (mem_addUniqueJ.mpr (Or.inr rfl))
    · simp only [List.foldl_cons]
      split
      · exact ih _ row hmem ht hs
      · exact ih _ row hmem ht hs

/-- C3 (amended): when the explicitly supplied list contributes at least
one name, the final list is exactly those explicit names — row flags are
ignored; only when the explicit set is empty is the list derived from the
rows, and then every row with the flag set and a team name appears. -/
theorem c3_outcome_list_explicit_wins (value : JVal) (rows : List JVal)
    (flag : String) :
    (explicitOutcomeNames value ≠ [] →
      normaliseOutcomeList value rows flag = explicitOutcomeNames value) ∧
    (explicitOutcomeNames value = [] →
      ∀ row ∈ rows, truthy (getF row flag) = true →
        (toStringValue (getF row "team")).isSome = true →
        getF row "team" ∈ normaliseOutcomeList value rows flag) := by
  constructor
  · intro hne
    rw [normaliseOutcomeList_eq]
    have : (explicitOutcomeNames value).isEmpty = false := by
      cases h : explicitOutcomeNames value with
      | nil => exact absurd h hne
      | cons a l => simp [List.isEmpty]
    simp [this]
  · intro he row hmem ht hs
    rw [normaliseOutcomeList_eq, he]
    have hrows : rows.isEmpty = false := by
      cases rows with
      | nil => simp at hmem
      | cons a l => simp [List.isEmpty]
    simp only [List.isEmpty_nil, hrows, Bool.not_false, Bool.and_self, if_pos]
    exact outcomeFold_adds flag rows [] row hmem ht hs

/-- Witness for C3's amended statement at concrete inputs. -/
theorem c3_outcome_list_explicit_wins_witness :
    normaliseOutcomeList (.jarr [.jstr "TeamA"])
      [.jobj [("team", .jstr "TeamB"), ("wasPromoted", .jbool true)]]
      "wasPromoted" = [.jstr "TeamA"] ∧
    JVal.jstr "TeamB" ∈ normaliseOutcomeList .jundefined
      [.jobj [("team", .jstr "TeamB"), ("wasPromoted", .jbool true)]]
      "wasPromoted" := by
  constructor
  · exact (c3_outcome_list_explicit_wins (.jarr [.jstr "TeamA"])
      [.jobj [("team", .jstr "TeamB"), ("wasPromoted", .jbool true)]]
      "wasPromoted").1 (by decide)
  · exact (c3_outcome_list_explicit_wins .jundefined
      [.jobj [("team", .jstr "TeamB"), ("wasPromoted", .jbool true)]]
      "wasPromoted").2 (by decide)
      (.jobj [("team", .jstr "TeamB"), ("wasPromoted", .jbool true)])
      (by decide) (by decide) (by decide)

/-- C3 counterexample: `buildTierData` with an explicit promoted list
`["TeamA"]` and a table whose row `TeamB` has `wasPromoted = true` yields
the promoted list `["TeamA"]` — the flagged team `TeamB` is *not* in the
final list, so the final list is not the union of the explicit and
row-flag-derived names. -/
theorem c3_outcome_union_counterexample :
    (buildTierData (.jnum 2000)
        (.jarr [.jobj [("team", .jstr "TeamB"), ("wasPromoted", .jbool true)]])
        (.jarr [.jstr "TeamA"]) .jundefined .jundefined).map
      (fun t => (getF t "promoted",
        (tierTableOf t).map (fun r => (getF r "team", getF r "wasPromoted"))))
      = .ok (.jarr [.jstr "TeamA"], [(.jstr "TeamB", .jbool true)]) := by
  rfl

/-! ## C5: merge idempotence (counterexample half) -/

/-- C5 counterexample: merging the war-season dataset with itself does not
return it — the pipeline drops the 1915 season, so the output is the empty
dataset, not the input. -/
theorem c5_merge_idempotence_counterexample :
    combineFootballDataFiles [demoDataWar, demoDataWar] false =
      .ok (.jobj [("seasons", .jobj [])]) ∧
    JVal.jobj [("seasons", .jobj [])] ≠ demoDataWar := by
  exact ⟨rfl, by decide⟩

/-! ## C6: the `wasReprieved` pattern -/

def demoReprievedNotes : String := "Reprieved from re-election"

/-- C6 (code bug): a row whose notes are exactly the phrase
"Reprieved from re-election" normalises with `wasReprieved = false`,
because the source regex `/repriv(?:ed|e)d from re-election/i` misspells
the word ("repriv…" instead of "repriev…") and can never match it.  The
first conjunct shows the notes do contain the phrase (case-insensitively);
the second evaluates the code. -/
theorem c6_reprieved_phrase_unmatched :
    strHas (strLower demoReprievedNotes) "reprieved from re-election" = true ∧
    (normaliseLeagueTableEntry
        (.jobj [("team", .jstr "Everton"), ("notes", .jstr demoReprievedNotes)])).map
      (fun r => (getF r "wasReprieved", getF r "notes"))
      = .ok (.jbool false, .jstr demoReprievedNotes) := by
  exact ⟨by decide, rfl⟩

/-! ## C7: RSSSF footnote-derived promotion signal -/

def demoRsssfBlock : String :=
  "Test League - 1930-31\n Pos  Team   P W D L F A W D L F A Pts\n1  Everton  30 10 5 0 30 10 10 5 0 30 10 50 +\n+ Promoted to the First Division.\n"

/-- C7 (code bug): in the parsed competition block the only row carries
the footnote "Promoted to the First Division." (which matches the
promotion pattern, second conjunct), its structural signal is false
(lower-case team name), yet the final `wasPromoted` is `false`: the
union with the footnote-derived signal is never taken because
`row.wasPromoted ?? wasPromoted` nullish-coalesces on an always-boolean
left operand. -/
theorem c7_footnote_promotion_dropped :
    (parseCompetitionBlock demoRsssfBlock false).map
      (fun comp => comp.rows.map (fun r => (r.notes, r.wasPromoted, r.wasRelegated)))
      = some [(some "Promoted to the First Division.", some false, some false)] ∧
    strHas (strLower "Promoted to the First Division.") "promot" = true := by
  constructor
  · decide
  · decide

/-! ## C8: fixed-width stat-window detection -/

def blackburnLine : String := "1  BLACKBURN ROVERS  30 10 5 0 30 10 10 5 0 30 10 50"

/-- C8: the Blackburn Rovers row parses with the 12-token numeric run
found at offset 2 of the post-position tokens (goal-difference column
omitted), the team recovered from the tokens before the run, `points = 50`,
home wins `10`, away wins `10`, and `goalDifference` recomputed as
`(homeGF + awayGF) − (homeGA + awayGA) = (30 + 30) − (10 + 10)`. -/
theorem c8_blackburn_fixed_width_row :
    (parseTableRow blackburnLine 22 false).map (fun r => r.team)
      = some "BLACKBURN ROVERS" ∧
    (parseTableRow blackburnLine 22 false).map (fun r => r.points) = some 50 ∧
    (parseTableRow blackburnLine 22 false).map (fun r => r.homeRecord.wins)
      = some 10 ∧
    (parseTableRow blackburnLine 22 false).map (fun r => r.awayRecord.wins)
      = some 10 ∧
    (parseTableRow blackburnLine 22 false).map (fun r => r.goalDifference)
      = some ((30 + 30) - (10 + 10)) ∧
    findStatsStart ((strTokens (strTrim blackburnLine)).drop 1)
      = some (2, MIN_STAT_COLUMN_COUNT) := by
  refine ⟨?_, ?_, ?_, ?_, ?_, ?_⟩ <;> decide

/-! ## C9: legend application is monotone -/

theorem foldl_wiki_mono {β : Type} (step : WikiRowFlags → β → WikiRowFlags)
    (hP : ∀ r b, r.wasPromoted = true → (step r b).wasPromoted = true)
    (hR : ∀ r b, r.wasRelegated = true → (step r b).wasRelegated = true) :
    ∀ (l : List β) (r : WikiRowFlags),
      (r.wasPromoted = true → (l.foldl step r).wasPromoted = true) ∧
      (r.wasRelegated = true → (l.foldl step r).wasRelegated = true) := by
  intro l
  induction l with
  | nil => exact fun r => ⟨fun h => h, fun h => h⟩
  | cons b rest ih =>
    intro r
    constructor
    · intro h
      exact (ih (step r b)).1 (hP r b h)
    · intro h
      exact (ih (step r b)).2 (hR r b h)

def legendStep (m : List (String × LegendEntry)) (r : WikiRowFlags)
    (symbol : String) : WikiRowFlags :=
  match lookupLegend m symbol with
  | none => r
  | some entry =>
    let r1 := if entry.promoted then { r with wasPromoted := true } else r
    if entry.relegated then { r1 with wasRelegated := true } else r1

def legendStepDiv (m : List (String × LegendEntry)) (sup : Bool)
    (r : WikiRowFlags) (symbol : String) : WikiRowFlags :=
  match lookupLegend m symbol with
  | none => r
  | some entry =>
    let r1 := if entry.promoted && !sup then { r with wasPromoted := true } else r
    if entry.relegated then { r1 with wasRelegated := true } else r1

theorem legend_step_mono (m : List (String × LegendEntry)) (r : WikiRowFlags)
    (b : String) :
    (r.wasPromoted = true → (legendStep m r b).wasPromoted = true) ∧
    (r.wasRelegated = true → (legendStep m r b).wasRelegated = true) := by
  cases hl : lookupLegend m b with
  | none => exact ⟨fun h => by simp [legendStep, hl, h], fun h => by simp [legendStep, hl, h]⟩
  | some entry =>
    constructor
    · intro h
      cases hp : entry.promoted <;> cases hr : entry.relegated <;>
        simp [legendStep, hl, hp, hr, h]
    · intro h
      cases hp : entry.promoted <;> cases hr : entry.relegated <;>
        simp [legendStep, hl, hp, hr, h]

theorem legend_step_div_mono (m : List (String × LegendEntry)) (sup : Bool)
    (r : WikiRowFlags) (b : String) :
    (r.wasPromoted = true → (legendStepDiv m sup r b).wasPromoted = true) ∧
    (r.wasRelegated = true → (legendStepDiv m sup r b).wasRelegated = true) := by
  cases hl : lookupLegend m b with
  | none =>
    exact ⟨fun h => by simp [legendStepDiv, hl, h],
      fun h => by simp [legendStepDiv, hl, h]⟩
  | some entry =>
    constructor
    · intro h
      cases hp : entry.promoted && !sup <;> cases hr : entry.relegated <;>
        simp [legendStepDiv, hl, hp, hr, h]
    · intro h
      cases hp : entry.promoted && !sup <;> cases hr : entry.relegated <;>
        simp [legendStepDiv, hl, hp, hr, h]

/-- C9: legend application is additive on the outcome flags: for both
variants of `applyLegendStatuses`, a `wasPromoted` or `wasRelegated` flag
that is true before legend application is still true afterwards — the
functions only ever assign `true`, so a legend can never clear a flag. -/
theorem c9_legend_application_monotone
    (legendMap : Option (List (String × LegendEntry))) (symbols : List String)
    (row : WikiRowFlags) (division : String) :
    (row.wasPromoted = true →
      (applyLegendStatuses legendMap symbols row).wasPromoted = true) ∧
    (row.wasRelegated = true →
      (applyLegendStatuses legendMap symbols row).wasRelegated = true) ∧
    (row.wasPromoted = true →
      (applyLegendStatusesDiv legendMap symbols row division).wasPromoted = true) ∧
    (row.wasRelegated = true →
      (applyLegendStatusesDiv legendMap symbols row division).wasRelegated = true) := by
  cases legendMap with
  | none => exact ⟨fun h => h, fun h => h, fun h => h, fun h => h⟩
  | some m =>
    have h1 := foldl_wiki_mono (legendStep m)
      (fun r b => (legend_step_mono m r b).1)
      (fun r b => (legend_step_mono m r b).2) symbols row
    have h2 := foldl_wiki_mono (legendStepDiv m (isFirstDivisionLabel division))
      (fun r b => (legend_step_div_mono m (isFirstDivisionLabel division) r b).1)
      (fun r b => (legend_step_div_mono m (isFirstDivisionLabel division) r b).2)
      symbols row
    exact ⟨h1.1, h1.2, h2.1, h2.2⟩

/-- Witness for C9 at a concrete legend map and row. -/
theorem c9_legend_application_monotone_witness :
    (applyLegendStatuses (some [("R", { promoted := false, relegated := true })])
      ["R"] { wasPromoted := true, wasRelegated := false }).wasPromoted = true ∧
    (applyLegendStatusesDiv (some [("P", { promoted := true, relegated := false })])
      ["P"] { wasPromoted := false, wasRelegated := true }
      "second").wasRelegated = true :=
  ⟨(c9_legend_application_monotone
      (some [("R", { promoted := false, relegated := true })]) ["R"]
      { wasPromoted := true, wasRelegated := false } "second").1 rfl,
   (c9_legend_application_monotone
      (some [("P", { promoted := true, relegated := false })]) ["P"]
      { wasPromoted := false, wasRelegated := true } "second").2.2.2 rfl⟩

/-! ## C10: which inputs make the normalisation entry points raise -/

/-- A field value on which `toNumber` cannot raise: nullish, the empty
string, or a value whose `Number(...)` coercion is finite. -/
def coercibleNum (v : JVal) : Bool :=
  looseNull v || v = .jstr "" || (jsNumberOf v).isSome

theorem coercibleNum_optNumToJVal (o : Option ℚ) :
    coercibleNum (optNumToJVal o) = true := by
  cases o <;> simp [optNumToJVal, coercibleNum, looseNull, jsNumberOf]

theorem toNumber_ok_of_coercible (v : JVal) (allowNull : Bool)
    (h : coercibleNum v = true) : ∃ o, toNumber v allowNull = .ok o := by
  by_cases h1 : (looseNull v || decide (v = .jstr "")) = true
  · rw [toNumber, if_pos h1]
    cases allowNull
    · exact ⟨some 0, rfl⟩
    · exact ⟨none, rfl⟩
  · have h2 : (jsNumberOf v).isSome = true := by
      rw [coercibleNum] at h
      rcases Bool.or_eq_true_iff.mp h with h | h
      · rcases Bool.or_eq_true_iff.mp h with h | h <;>
          exact absurd (Bool.or_eq_true_iff.mpr (by simp [h])) h1
      · exact h
    obtain ⟨q, hq⟩ := Option.isSome_iff_exists.mp h2
    refine ⟨some q, ?_⟩
    rw [toNumber, if_neg h1, hq]

theorem toNumber_false_some (v : JVal) (o : Option ℚ)
    (h : toNumber v false = .ok o) : ∃ q : ℚ, o = some q := by
  rw [toNumber] at h
  split at h
  · simp only [Bool.false_eq_true, if_false, Except.ok.injEq] at h
    exact ⟨0, h.symm⟩
  · split at h
    · simp only [Except.ok.injEq] at h
      exact ⟨_, h.symm⟩
    · exact absurd h (by simp)

theorem coerceNumberFields_preserve (keys : List String) (allowNull : Bool) :
    ∀ (rec out : List (String × JVal)),
      coerceNumberFields keys allowNull rec = .ok out →
      ∀ k', k' ∉ keys → getField out k' = getField rec k' := by
  induction keys with
  | nil =>
    intro rec out h k' _
    simp only [coerceNumberFields, foldlME, Except.ok.injEq] at h
    rw [h]
  | cons k rest ih =>
    intro rec out h k' hk'
    simp only [coerceNumberFields, foldlME] at h
    cases ht : toNumber (getField rec k) allowNull with
    | error e =>
      rw [ht] at h
      exact absurd h (by simp [Except.map])
    | ok o =>
      rw [ht] at h
      simp only [Except.map] at h
      have hrest := ih (objSet rec k (optNumToJVal o)) out h k'
        (fun hc => hk' (List.mem_cons_of_mem _ hc))
      rw [hrest, getField_objSet,
        if_neg (fun hc => hk' (by rw [← hc]; exact List.mem_cons_self k rest))]

theorem coerceNumberFields_ok (keys : List String) (allowNull : Bool) :
    ∀ (rec : List (String × JVal)),
      (∀ k ∈ keys, coercibleNum (getField rec k) = true) →
      ∃ out, coerceNumberFields keys allowNull rec = .ok out := by
  induction keys with
  | nil => exact fun rec _ => ⟨rec, rfl⟩
  | cons k rest ih =>
    intro rec hc
    obtain ⟨o, ho⟩ := toNumber_ok_of_coercible (getField rec k) allowNull
      (hc k (List.mem_cons_self k rest))
    have hc' : ∀ k2 ∈ rest, coercibleNum (getField (objSet rec k (optNumToJVal o)) k2) = true := by
      intro k2 hk2
      rw [getField_objSet]
      split
      · exact coercibleNum_optNumToJVal o
      · exact hc k2 (List.mem_cons_of_mem _ hk2)
    obtain ⟨out, hout⟩ := ih (objSet rec k (optNumToJVal o)) hc'
    refine ⟨out, ?_⟩
    simp only [coerceNumberFields, foldlME, ho, Except.map]
    exact hout

/-- C10 (amended): `normaliseLeagueTableEntry` raises exactly in these
situations — every non-object input raises (the acknowledged
programmer-error class), but it *also* raises on genuine object inputs:
whenever a numeric field holds a non-coercible value or the team name is
missing.  Conversely it returns a result whenever the input is an object,
the team name is present, and every numeric field is nullish, blank or
finitely coercible. -/
theorem c10_error_conditions :
    (∀ raw : JVal, (truthy raw && typeofObject raw) = false →
      exceptIsError (normaliseLeagueTableEntry raw) = true) ∧
    (∀ raw : JVal, (truthy raw && typeofObject raw) = true →
      (toStringValue (getField (spreadToObj raw) "team")).isSome = true →
      (∀ k ∈ NUMBER_FIELDS ++ OPTIONAL_NUMBER_FIELDS,
        coercibleNum (getField (spreadToObj raw) k) = true) →
      exceptIsError (normaliseLeagueTableEntry raw) = false) := by
  constructor
  · intro raw h
    rw [normaliseLeagueTableEntry]
    rw [h]
    rfl
  · intro raw hobj hteam hnum
    obtain ⟨rec1, h1⟩ := coerceNumberFields_ok NUMBER_FIELDS false (spreadToObj raw)
      (fun k hk => hnum k (List.mem_append.mpr (Or.inl hk)))
    have hpres1 := coerceNumberFields_preserve NUMBER_FIELDS false (spreadToObj raw)
      rec1 h1
    have hopt_notnum : ∀ k ∈ OPTIONAL_NUMBER_FIELDS, k ∉ NUMBER_FIELDS := by
      decide
    obtain ⟨rec2, h2⟩ := coerceNumberFields_ok OPTIONAL_NUMBER_FIELDS true rec1
      (fun k hk => by
        rw [hpres1 k (hopt_notnum k hk)]
        exact hnum k (List.mem_append.mpr (Or.inr hk)))
    have hpres2 := coerceNumberFields_preserve OPTIONAL_NUMBER_FIELDS true rec1
      rec2 h2
    have hteam2 : (toStringValue (getField rec2 "team")).isSome = true := by
      rw [hpres2 "team" (by decide), hpres1 "team" (by decide)]
      exact hteam
    obtain ⟨teamName, hteamName⟩ := Option.isSome_iff_exists.mp hteam2
    rw [normaliseLeagueTableEntry, hobj]
    simp only [Bool.not_true, Bool.false_eq_true, if_false, h1, h2, hteamName]
    rfl

/-- Witness for C10's amended statement: the conditions hold at a
well-formed row (numeric-string position) and fail at `null`. -/
theorem c10_error_conditions_witness :
    exceptIsError (normaliseLeagueTableEntry
      (.jobj [("team", .jstr "Everton"), ("pos", .jstr "7")])) = false ∧
    exceptIsError (normaliseLeagueTableEntry .jnull) = true :=
  ⟨c10_error_conditions.2 (.jobj [("team", .jstr "Everton"), ("pos", .jstr "7")])
      (by decide) (by decide) (by decide),
   c10_error_conditions.1 .jnull (by decide)⟩

/-- C10 counterexample: a genuine object input – a row object whose `pos`
field holds the non-numeric string `"abc"` – makes
`normaliseLeagueTableEntry` raise, so the entry points do not "return a
result for every object input". -/
theorem c10_object_input_raises_counterexample :
    (truthy (JVal.jobj [("team", .jstr "Everton"), ("pos", .jstr "abc")]) &&
      typeofObject (JVal.jobj [("team", .jstr "Everton"), ("pos", .jstr "abc")]))
      = true ∧
    exceptIsError (normaliseLeagueTableEntry
      (.jobj [("team", .jstr "Everton"), ("pos", .jstr "abc")])) = true := by
  exact ⟨by decide, by decide⟩

/-! ## C1: the goal-difference invariant of merged datasets -/

theorem mem_objSet_inv {fs : List (String × JVal)} {k : String} {v : JVal}
    {x : String × JVal} (h : x ∈ objSet fs k v) : x ∈ fs ∨ x = (k, v) := by
  induction fs with
  | nil =>
    rw [objSet] at h
    rcases List.mem_singleton.mp h with rfl
    exact Or.inr rfl
  | cons f rest ih =>
    obtain ⟨k0, v0⟩ := f
    by_cases h0 : k0 = k
    · subst h0
      rw [objSet, if_pos rfl] at h
      rcases List.mem_cons.mp h with h1 | h1
      · exact Or.inr h1
      · exact Or.inl (List.mem_cons_of_mem _ h1)
    · rw [objSet, if_neg h0] at h
      rcases List.mem_cons.mp h with h1 | h1
      · exact Or.inl (h1 ▸ List.mem_cons_self _ _)
      · rcases ih h1 with h2 | h2
        · exact Or.inl (List.mem_cons_of_mem _ h2)
        · exact Or.inr h2

theorem getField_foldl_preserve (keys : List String)
    (F : List (String × JVal) → String → List (String × JVal))
    (hF : ∀ rec key, F rec key = rec ∨ ∃ v, F rec key = objSet rec key v) :
    ∀ (rec : List (String × JVal)) (k : String), k ∉ keys →
      getField (keys.foldl F rec) k = getField rec k := by
  induction keys with
  | nil => intro rec k _; rfl
  | cons key rest ih =>
    intro rec k hk
    have hk' : k ∉ rest := fun hc => hk (List.mem_cons_of_mem _ hc)
    have hkk : ¬(key = k) := fun hc => hk (hc ▸ List.mem_cons_self _ _)
    simp only [List.foldl_cons]
    rcases hF rec key with hid | ⟨v, hset⟩
    · rw [hid, ih rec k hk']
    · rw [hset, ih _ k hk', getField_objSet, if_neg hkk]

theorem deriveBooleanFields_preserve (rec : List (String × JVal))
    (notes : Option String) (k : String) (hk : k ∉ BOOLEAN_FIELDS) :
    getField (deriveBooleanFields rec notes) k = getField rec k := by
  refine getField_foldl_preserve BOOLEAN_FIELDS _ ?_ rec k hk
  intro r key
  cases getField r key with
  | jbool b => exact Or.inl rfl
  | jundefined => exact Or.inr ⟨_, rfl⟩
  | jnull => exact Or.inr ⟨_, rfl⟩
  | jnum q => exact Or.inr ⟨_, rfl⟩
  | jstr s => exact Or.inr ⟨_, rfl⟩
  | jarr xs => exact Or.inr ⟨_, rfl⟩
  | jobj fs => exact Or.inr ⟨_, rfl⟩

theorem coerceBooleanFields_preserve (rec : List (String × JVal)) (k : String)
    (hk : k ∉ BOOLEAN_FIELDS) :
    getField (coerceBooleanFields rec) k = getField rec k := by
  refine getField_foldl_preserve BOOLEAN_FIELDS _ ?_ rec k hk
  intro r key
  exact Or.inr ⟨_, rfl⟩

theorem coerceNumberFields_required (keys : List String) :
    ∀ (rec out : List (String × JVal)), keys.Nodup →
      coerceNumberFields keys false rec = .ok out →
      ∀ k ∈ keys, ∃ q : ℚ, getField out k = .jnum q := by
  induction keys with
  | nil => intro rec out _ _ k hk; simp at hk
  | cons key rest ih =>
    intro rec out hnd h k hk
    simp only [coerceNumberFields, foldlME] at h
    cases ht : toNumber (getField rec key) false with
    | error e =>
      rw [ht] at h
      exact absurd h (by simp [Except.map])
    | ok o =>
      rw [ht] at h
      simp only [Except.map] at h
      obtain ⟨q, hq⟩ := toNumber_false_some _ _ ht
      subst hq
      rcases List.mem_cons.mp hk with rfl | hk
      · have hpres := coerceNumberFields_preserve rest false _ out h k
          ((List.nodup_cons.mp hnd).1)
        refine ⟨q, ?_⟩
        rw [hpres, getField_objSet, if_pos rfl]
        rfl
      · exact ih _ out (List.nodup_cons.mp hnd).2 h k hk

/-- Field-extraction on the final entry literal. -/
theorem rowHasNums_finalEntryFields (rec4 : List (String × JVal)) (qf qa : ℚ)
    (hf : getField rec4 "goalsFor" = .jnum qf)
    (ha : getField rec4 "goalsAgainst" = .jnum qa) :
    rowHasNums (.jobj (finalEntryFields rec4)) = true := by
  simp [rowHasNums, getF, finalEntryFields, getField, hf, ha, isNumV]

/-- The shape of a successfully normalised entry: its `goalsFor` and
`goalsAgainst` are numbers. -/
theorem normaliseLeagueTableEntry_nums (raw row : JVal)
    (h : normaliseLeagueTableEntry raw = .ok row) : rowHasNums row = true := by
  rw [normaliseLeagueTableEntry] at h
  split at h
  · exact absurd h (by simp)
  · cases h1 : coerceNumberFields NUMBER_FIELDS false (spreadToObj raw) with
    | error e =>
      rw [h1] at h
      exact absurd h (by simp)
    | ok rec1 =>
      rw [h1] at h
      dsimp only at h
      cases h2 : coerceNumberFields OPTIONAL_NUMBER_FIELDS true rec1 with
      | error e =>
        rw [h2] at h
        exact absurd h (by simp)
      | ok rec2 =>
        rw [h2] at h
        dsimp only at h
        cases h3 : toStringValue (getField rec2 "team") with
        | none =>
          rw [h3] at h
          exact absurd h (by simp)
        | some teamName =>
          rw [h3] at h
          dsimp only at h
          simp only [Except.ok.injEq] at h
          obtain ⟨qf, hqf⟩ := coerceNumberFields_required NUMBER_FIELDS
            (spreadToObj raw) rec1 (by decide) h1 "goalsFor" (by decide)
          obtain ⟨qa, hqa⟩ := coerceNumberFields_required NUMBER_FIELDS
            (spreadToObj raw) rec1 (by decide) h1 "goalsAgainst" (by decide)
          have hf2 : getField rec2 "goalsFor" = .jnum qf := by
            rw [coerceNumberFields_preserve OPTIONAL_NUMBER_FIELDS true rec1 rec2
              h2 "goalsFor" (by decide)]
            exact hqf
          have ha2 : getField rec2 "goalsAgainst" = .jnum qa := by
            rw [coerceNumberFields_preserve OPTIONAL_NUMBER_FIELDS true rec1 rec2
              h2 "goalsAgainst" (by decide)]
            exact hqa
          rw [← h]
          refine rowHasNums_finalEntryFields _ qf qa ?_ ?_
          · rw [coerceBooleanFields_preserve _ _ (by decide),
              deriveBooleanFields_preserve _ _ _ (by decide),
              getField_objSet, if_neg (by decide), getField_objSet,
              if_neg (by decide)]
            exact hf2
          · rw [coerceBooleanFields_preserve _ _ (by decide),
              deriveBooleanFields_preserve _ _ _ (by decide),
              getField_objSet, if_neg (by decide), getField_objSet,
              if_neg (by decide)]
            exact ha2

theorem flatMap_map_comm {α β γ : Type} (l : List α) (f : α → List β) (g : β → γ) :
    (l.flatMap f).map g = l.flatMap (fun a => (f a).map g) := by
  induction l with
  | nil => rfl
  | cons a rest ih => simp [List.flatMap_cons, ih]

theorem map_flatMap_comp {α β γ : Type} (l : List α) (f : α → β) (g : β → List γ) :
    (l.map f).flatMap g = l.flatMap (fun a => g (f a)) := by
  induction l with
  | nil => rfl
  | cons a rest ih => simp [List.flatMap_cons, ih]

theorem tierTableOf_normaliseTierData (tv : JVal) (sk : String) (t : JVal)
    (h : normaliseTierData tv sk = .ok t) :
    ∃ nt, mapME normaliseLeagueTableEntry (sanitizeRows (getF tv "table")) = .ok nt ∧
      tierTableOf t = nt := by
  rw [normaliseTierData] at h
  obtain ⟨nt, hnt, hp⟩ := except_bind_ok h
  refine ⟨nt, hnt, ?_⟩
  simp only [pure, Except.pure, Except.ok.injEq] at hp
  rw [← hp]
  simp [tierTableOf, getField_objSet]

theorem normaliseTierData_rows (tv : JVal) (sk : String) (t : JVal)
    (h : normaliseTierData tv sk = .ok t) :
    ∀ row ∈ tierTableOf t, ∃ raw, normaliseLeagueTableEntry raw = .ok row := by
  obtain ⟨nt, hnt, hteq⟩ := tierTableOf_normaliseTierData tv sk t h
  intro row hrow
  rw [hteq] at hrow
  obtain ⟨raw, _, hraw⟩ := mapME_ok_mem normaliseLeagueTableEntry _ nt hnt row hrow
  exact ⟨raw, hraw⟩

theorem normaliseSeasonRecord_rows (sv : JVal) (sk : String) (rec : JVal)
    (h : normaliseSeasonRecord sv sk = .ok rec) :
    ∀ row ∈ recordRowsOf rec, ∃ raw, normaliseLeagueTableEntry raw = .ok row := by
  rw [normaliseSeasonRecord] at h
  obtain ⟨fs, hfs, hp⟩ := except_bind_ok h
  simp only [pure, Except.pure, Except.ok.injEq] at hp
  have hinv := foldlME_invariant
    (fun acc => ∀ kv ∈ acc, ∀ row ∈ tierTableOf kv.2,
      ∃ raw, normaliseLeagueTableEntry raw = .ok row)
    _ ?_ _ [] fs (by intro kv hkv; simp at hkv) hfs
  · intro row hrow
    rw [← hp] at hrow
    simp only [recordRowsOf] at hrow
    obtain ⟨kv, hkv, hrow⟩ := List.mem_flatMap.mp hrow
    exact hinv kv hkv row hrow
  · intro s a s' hP hstep
    obtain ⟨tk, tv⟩ := a
    dsimp only at hstep
    by_cases harr : isArr tv
    · rw [if_pos harr] at hstep
      obtain ⟨rows, hrows, hp2⟩ := except_bind_ok hstep
      simp only [pure, Except.pure, Except.ok.injEq] at hp2
      rw [← hp2]
      intro kv hkv
      rcases mem_objSet_inv hkv with hkv | hkv
      · exact hP kv hkv
      · subst hkv
        intro row hrow
        simp only [tierTableOf] at hrow
        obtain ⟨raw, _, hraw⟩ := mapME_ok_mem normaliseLeagueTableEntry _ rows
          hrows row hrow
        exact ⟨raw, hraw⟩
    · rw [if_neg harr] at hstep
      by_cases htd : isTierData tv
      · rw [if_pos htd] at hstep
        obtain ⟨t, ht, hp2⟩ := except_bind_ok hstep
        simp only [pure, Except.pure, Except.ok.injEq] at hp2
        rw [← hp2]
        intro kv hkv
        rcases mem_objSet_inv hkv with hkv | hkv
        · exact hP kv hkv
        · subst hkv
          exact normaliseTierData_rows tv sk t ht
      · rw [if_neg htd] at hstep
        by_cases hobj : (truthy tv && typeofObject tv) = true
        · rw [if_pos hobj] at hstep
          obtain ⟨t, ht, hp2⟩ := except_bind_ok hstep
          simp only [pure, Except.pure, Except.ok.injEq] at hp2
          rw [← hp2]
          intro kv hkv
          rcases mem_objSet_inv hkv with hkv | hkv
          · exact hP kv hkv
          · subst hkv
            exact normaliseTierData_rows tv sk t ht
        · rw [if_neg hobj] at hstep
          simp only [pure, Except.pure, Except.ok.injEq] at hstep
          rw [← hstep]
          exact hP

theorem createFootballData_shape_rows (x y : JVal)
    (h : createFootballData x = .ok y) :
    ∃ fs, y = .jobj [("seasons", .jobj fs)] ∧
      ∀ kv ∈ fs, ∀ row ∈ recordRowsOf kv.2,
        ∃ raw, normaliseLeagueTableEntry raw = .ok row := by
  rw [createFootballData] at h
  obtain ⟨fs, hfs, hp⟩ := except_bind_ok h
  simp only [pure, Except.pure, Except.ok.injEq] at hp
  refine ⟨fs, hp.symm, ?_⟩
  refine foldlME_invariant
    (fun acc => ∀ kv ∈ acc, ∀ row ∈ recordRowsOf kv.2,
      ∃ raw, normaliseLeagueTableEntry raw = .ok row)
    _ ?_ _ [] fs (by intro kv hkv; simp at hkv) hfs
  intro s a s' hP hstep
  by_cases hobj : (truthy a.2 && typeofObject a.2) = true
  · rw [if_pos hobj] at hstep
    obtain ⟨rec, hrec, hp2⟩ := except_bind_ok hstep
    simp only [pure, Except.pure, Except.ok.injEq] at hp2
    rw [← hp2]
    intro kv hkv
    rcases mem_objSet_inv hkv with hkv | hkv
    · exact hP kv hkv
    · subst hkv
      exact normaliseSeasonRecord_rows a.2 a.1 rec hrec
  · rw [if_neg hobj] at hstep
    simp only [pure, Except.pure, Except.ok.injEq] at hstep
    rw [← hstep]
    exact hP

theorem tierTableOf_ngdTier (t : JVal) :
    tierTableOf (ngdTier t) = (tierTableOf t).map ngdRow := by
  cases t with
  | jarr rows => rfl
  | jobj fs =>
    cases hgt : getField fs "table" with
    | jarr rows =>
      simp [ngdTier, hgt, tierTableOf, getField_objSet]
    | jundefined => simp [ngdTier, hgt, tierTableOf]
    | jnull => simp [ngdTier, hgt, tierTableOf]
    | jbool b => simp [ngdTier, hgt, tierTableOf]
    | jnum q => simp [ngdTier, hgt, tierTableOf]
    | jstr s => simp [ngdTier, hgt, tierTableOf]
    | jobj gs => simp [ngdTier, hgt, tierTableOf]
  | jundefined => rfl
  | jnull => rfl
  | jbool b => rfl
  | jnum q => rfl
  | jstr s => rfl

theorem recordRowsOf_ngdRecord (r : JVal) :
    recordRowsOf (ngdRecord r) = (recordRowsOf r).map ngdRow := by
  cases r with
  | jobj fs =>
    simp only [ngdRecord, truthy, typeofObject, Bool.and_self, Bool.not_true,
      Bool.false_eq_true, if_false, recordRowsOf]
    rw [map_flatMap_comp, flatMap_map_comm]
    congr 1
    funext kv
    exact tierTableOf_ngdTier kv.2
  | jarr xs =>
    simp only [ngdRecord, truthy, typeofObject, Bool.and_self, Bool.not_true,
      Bool.false_eq_true, if_false, recordRowsOf]
    rw [map_flatMap_comp, flatMap_map_comm]
    congr 1
    funext t
    exact tierTableOf_ngdTier t
  | jundefined => rfl
  | jnull => rfl
  | jbool b =>
    have hng : ngdRecord (JVal.jbool b) = JVal.jbool b := by
      simp [ngdRecord, typeofObject]
    rw [hng]
    cases b <;> rfl
  | jnum q =>
    have hng : ngdRecord (JVal.jnum q) = JVal.jnum q := by
      simp [ngdRecord, typeofObject]
    rw [hng]
    rfl
  | jstr s =>
    have hng : ngdRecord (JVal.jstr s) = JVal.jstr s := by
      simp [ngdRecord, typeofObject]
    rw [hng]
    rfl

theorem ngd_literal (fs : List (String × JVal)) :
    normaliseGoalDifferences (.jobj [("seasons", .jobj fs)]) =
      .jobj [("seasons", ngdSeasons (.jobj fs))] := by
  rw [normaliseGoalDifferences]
  simp [getF, getField, truthy]

theorem datasetRowsOf_ngd (fs : List (String × JVal)) :
    datasetRowsOf (normaliseGoalDifferences (.jobj [("seasons", .jobj fs)])) =
      ((JVal.jobj [("seasons", .jobj fs)] |> datasetRowsOf).map ngdRow) := by
  rw [ngd_literal]
  have e1 : datasetRowsOf (JVal.jobj [("seasons", ngdSeasons (.jobj fs))]) =
      (fs.map (fun kv => (kv.1, ngdRecord kv.2))).flatMap
        (fun kv => recordRowsOf kv.2) := by
    simp [datasetRowsOf, getF, getField, ngdSeasons]
  have e2 : datasetRowsOf (JVal.jobj [("seasons", JVal.jobj fs)]) =
      fs.flatMap (fun kv => recordRowsOf kv.2) := by
    simp [datasetRowsOf, getF, getField]
  rw [e1, e2, map_flatMap_comp, flatMap_map_comm]
  congr 1
  funext kv
  exact recordRowsOf_ngdRecord kv.2

theorem rowGDInvariant_ngdRow (row : JVal) (h : rowHasNums row = true) :
    rowGDInvariant (ngdRow row) = true := by
  cases row with
  | jobj fs =>
    simp only [rowHasNums, getF, Bool.and_eq_true] at h
    obtain ⟨hf, ha⟩ := h
    cases hgf : getField fs "goalsFor" with
    | jnum gf =>
      cases hga : getField fs "goalsAgainst" with
      | jnum ga =>
        have : ngdRow (.jobj fs) =
            .jobj (objSet fs "goalDifference" (.jnum (gf - ga))) := by
          rw [ngdRow]
          simp only [truthy, typeofObject, Bool.and_self, Bool.not_true,
            Bool.false_eq_true, if_false, getF, hgf, hga]
        rw [this]
        simp [rowGDInvariant, getF, getField_objSet, hgf, hga]
      | jundefined => rw [hga] at ha; exact absurd ha (by simp [isNumV])
      | jnull => rw [hga] at ha; exact absurd ha (by simp [isNumV])
      | jbool b => rw [hga] at ha; exact absurd ha (by simp [isNumV])
      | jstr s => rw [hga] at ha; exact absurd ha (by simp [isNumV])
      | jarr xs => rw [hga] at ha; exact absurd ha (by simp [isNumV])
      | jobj gs => rw [hga] at ha; exact absurd ha (by simp [isNumV])
    | jundefined => rw [hgf] at hf; exact absurd hf (by simp [isNumV])
    | jnull => rw [hgf] at hf; exact absurd hf (by simp [isNumV])
    | jbool b => rw [hgf] at hf; exact absurd hf (by simp [isNumV])
    | jstr s => rw [hgf] at hf; exact absurd hf (by simp [isNumV])
    | jarr xs => rw [hgf] at hf; exact absurd hf (by simp [isNumV])
    | jobj gs => rw [hgf] at hf; exact absurd hf (by simp [isNumV])
  | jundefined => exact absurd h (by decide)
  | jnull => exact absurd h (by decide)
  | jbool b => simp [rowHasNums, getF, isNumV] at h
  | jnum q => simp [rowHasNums, getF, isNumV] at h
  | jstr s => simp [rowHasNums, getF, isNumV] at h
  | jarr xs =>
    simp [rowHasNums, getF, isNumV] at h

theorem datasetRowsOf_literal (fs : List (String × JVal)) :
    datasetRowsOf (JVal.jobj [("seasons", JVal.jobj fs)]) =
      fs.flatMap (fun kv => recordRowsOf kv.2) := by
  simp [datasetRowsOf, getF, getField]

/-- C1: every row of every tier table of a dataset produced by
`combineFootballDataFiles` satisfies `goalDifference = goalsFor −
goalsAgainst`, for every input list and both `includeEmpty` settings,
regardless of the `goalDifference` values recorded in the inputs: the
final pass renormalises every row (so `goalsFor`/`goalsAgainst` are
numbers) and `normaliseGoalDifferences` then rewrites every
`goalDifference`. -/
theorem c1_merged_goal_difference (inputs : List JVal) (ie : Bool) (d : JVal)
    (h : combineFootballDataFiles inputs ie = .ok d) :
    ∀ row ∈ datasetRowsOf d, rowGDInvariant row = true := by
  rw [combineFootballDataFiles] at h
  split at h
  · exact absurd h (by simp)
  · obtain ⟨seasons, hs, h⟩ := except_bind_ok h
    obtain ⟨final, hfinal, hp⟩ := except_bind_ok h
    simp only [pure, Except.pure, Except.ok.injEq] at hp
    obtain ⟨fs, hshape, hrows⟩ := createFootballData_shape_rows _ final hfinal
    rw [← hp, hshape, datasetRowsOf_ngd]
    intro row hrow
    obtain ⟨row0, hrow0, rfl⟩ := List.mem_map.mp hrow
    apply rowGDInvariant_ngdRow
    rw [datasetRowsOf_literal] at hrow0
    obtain ⟨kv, hkv, hr⟩ := List.mem_flatMap.mp hrow0
    obtain ⟨raw, hraw⟩ := hrows kv hkv row0 hr
    exact normaliseLeagueTableEntry_nums raw row0 hraw

/-- The concrete merged dataset used by the C1 witness. -/
def demoCombinedAB : JVal :=
  (combineFootballDataFiles [demoDataA, demoDataB] false).toOption.getD .jnull

/-- Witness for C1 at a concrete merge. -/
theorem c1_merged_goal_difference_witness :
    combineFootballDataFiles [demoDataA, demoDataB] false = .ok demoCombinedAB ∧
    (datasetRowsOf demoCombinedAB).all rowGDInvariant = true :=
  ⟨rfl,
    List.all_eq_true.mpr
      (c1_merged_goal_difference [demoDataA, demoDataB] false demoCombinedAB rfl)⟩

/-! ## C4: war-year exclusion -/

theorem foldlME_invariant_mem {σ α : Type} (P : σ → Prop)
    (step : σ → α → Except String σ) :
    ∀ (l : List α), (∀ s a s', a ∈ l → P s → step s a = .ok s' → P s') →
      ∀ (s0 s1 : σ), P s0 → foldlME step s0 l = .ok s1 → P s1 := by
  intro l
  induction l with
  | nil =>
    intro _ s0 s1 h0 h
    simp only [foldlME, Except.ok.injEq] at h
    exact h ▸ h0
  | cons a rest ih =>
    intro hstep s0 s1 h0 h
    simp only [foldlME] at h
    cases hs : step s0 a with
    | error e => rw [hs] at h; exact absurd h (by simp)
    | ok s' =>
      rw [hs] at h
      exact ih (fun s b s2 hb => hstep s b s2 (List.mem_cons_of_mem _ hb)) s' s1
        (hstep s0 a s' (List.mem_cons_self _ _) h0 hs) h

theorem keys_objSet_mem {fs : List (String × JVal)} {k k' : String} {v : JVal}
    (h : k' ∈ (objSet fs k v).map Prod.fst) :
    k' ∈ fs.map Prod.fst ∨ k' = k := by
  obtain ⟨kv, hkv, hfst⟩ := List.mem_map.mp h
  rcases mem_objSet_inv hkv with hkv | hkv
  · exact Or.inl (hfst ▸ List.mem_map.mpr ⟨kv, hkv, rfl⟩)
  · subst hkv
    exact Or.inr hfst.symm

theorem keys_foldl_objSet_sub (fs : List (String × JVal)) :
    ∀ (acc : List (String × JVal)) (k : String),
      k ∈ ((fs.foldl (fun a f => objSet a f.1 f.2) acc).map Prod.fst) →
      k ∈ acc.map Prod.fst ∨ k ∈ fs.map Prod.fst := by
  induction fs with
  | nil => intro acc k h; exact Or.inl h
  | cons f rest ih =>
    intro acc k h
    simp only [List.foldl_cons] at h
    rcases ih (objSet acc f.1 f.2) k h with h1 | h1
    · rcases keys_objSet_mem h1 with h2 | h2
      · exact Or.inl h2
      · exact Or.inr (by simp [h2])
    · exact Or.inr (List.mem_cons_of_mem _ h1)

theorem keys_dedupe_sub {fs : List (String × JVal)} {k : String}
    (h : k ∈ (dedupeFields fs).map Prod.fst) : k ∈ fs.map Prod.fst := by
  rcases keys_foldl_objSet_sub fs [] k h with h1 | h1
  · simp at h1
  · exact h1

theorem createFootballData_keys (x y : JVal)
    (h : createFootballData x = .ok y) :
    ∃ fs, y = .jobj [("seasons", .jobj fs)] ∧
      ∀ k ∈ fs.map Prod.fst, k ∈ (entriesOf (seasonsSourceOf x)).map Prod.fst := by
  rw [createFootballData] at h
  obtain ⟨fs, hfs, hp⟩ := except_bind_ok h
  simp only [pure, Except.pure, Except.ok.injEq] at hp
  refine ⟨fs, hp.symm, ?_⟩
  refine foldlME_invariant_mem
    (fun acc => ∀ k ∈ acc.map Prod.fst,
      k ∈ (entriesOf (seasonsSourceOf x)).map Prod.fst)
    _ _ ?_ [] fs (by intro k hk; simp at hk) hfs
  intro s a s' ha hP hstep
  by_cases hobj : (truthy a.2 && typeofObject a.2) = true
  · rw [if_pos hobj] at hstep
    obtain ⟨rec, _, hp2⟩ := except_bind_ok hstep
    simp only [pure, Except.pure, Except.ok.injEq] at hp2
    rw [← hp2]
    intro k hk
    rcases keys_objSet_mem hk with hk | hk
    · exact hP k hk
    · exact hk ▸ List.mem_map.mpr ⟨a, ha, rfl⟩
  · rw [if_neg hobj] at hstep
    simp only [pure, Except.pure, Except.ok.injEq] at hstep
    rw [← hstep]
    exact hP

theorem seasonsSourceOf_literal (L : List (String × JVal)) :
    seasonsSourceOf (.jobj [("seasons", .jobj L)]) = .jobj L := by
  simp [seasonsSourceOf, truthy, typeofObject, hasSeasonsKey, hasKey, getF,
    getField]

theorem datasetSeasonKeys_ngd (fs : List (String × JVal)) :
    datasetSeasonKeys (normaliseGoalDifferences (.jobj [("seasons", .jobj fs)])) =
      fs.map Prod.fst := by
  rw [ngd_literal]
  simp [datasetSeasonKeys, getF, getField, ngdSeasons]

/-- C4: after a merge no season key that parses to a WWI (1915–1918) or
WWII (1940–1945) year remains, for every input list and both
`includeEmpty` settings; season keys that do not parse to a number are
never classified as war seasons by this rule. -/
theorem c4_war_year_exclusion :
    (∀ (inputs : List JVal) (ie : Bool) (d : JVal),
      combineFootballDataFiles inputs ie = .ok d →
      (datasetSeasonKeys d).all (fun k => !isWarSuspensionSeason k) = true) ∧
    (∀ k : String, parseSeasonKey k = none → isWarSuspensionSeason k = false) := by
  constructor
  · intro inputs ie d h
    rw [combineFootballDataFiles] at h
    split at h
    · exact absurd h (by simp)
    · obtain ⟨seasons, hs, h⟩ := except_bind_ok h
      obtain ⟨final, hfinal, hp⟩ := except_bind_ok h
      simp only [pure, Except.pure, Except.ok.injEq] at hp
      obtain ⟨fs, hshape, hkeys⟩ := createFootballData_keys _ final hfinal
      rw [← hp, hshape, datasetSeasonKeys_ngd]
      rw [List.all_eq_true]
      intro k hk
      have hsub := hkeys k hk
      rw [seasonsSourceOf_literal] at hsub
      have hmem : k ∈ (if ie then
          seasons.filter (fun kv => !isWarSuspensionSeason kv.1)
        else (seasons.filter (fun kv => !isWarSuspensionSeason kv.1)).filter
          (fun kv => seasonHasData kv.2)).map Prod.fst := by
        exact keys_dedupe_sub (by simpa [entriesOf] using hsub)
      have hnw : k ∈ (seasons.filter
          (fun kv => !isWarSuspensionSeason kv.1)).map Prod.fst := by
        rcases ie with _ | _
        · simp only [Bool.false_eq_true, if_false] at hmem
          obtain ⟨kv, hkv, hfst⟩ := List.mem_map.mp hmem
          exact List.mem_map.mpr ⟨kv, (List.mem_filter.mp hkv).1, hfst⟩
        · simpa using hmem
      obtain ⟨kv, hkv, hfst⟩ := List.mem_map.mp hnw
      have := (List.mem_filter.mp hkv).2
      rw [← hfst]
      exact this
  · intro k hk
    rw [isWarSuspensionSeason, hk]

/-- Witness for C4 at a concrete merge containing a 1915 season. -/
theorem c4_war_year_exclusion_witness :
    (datasetSeasonKeys ((combineFootballDataFiles [demoDataWar, demoDataA]
        false).toOption.getD .jnull)).all
      (fun k => !isWarSuspensionSeason k) = true ∧
    isWarSuspensionSeason "not-a-year" = false :=
  ⟨c4_war_year_exclusion.1 [demoDataWar, demoDataA] false
      ((combineFootballDataFiles [demoDataWar, demoDataA] false).toOption.getD
        .jnull) rfl,
   c4_war_year_exclusion.2 "not-a-year" (by decide)⟩

/-! ## C5: merging a dataset with itself (amended general statement) -/

theorem getField_eq_jundef_of_not_hasKey (fs : List (String × JVal)) (k : String)
    (h : hasKey fs k = false) : getField fs k = .jundefined := by
  induction fs with
  | nil => rfl
  | cons f rest ih =>
    simp only [hasKey, List.any_cons, Bool.or_eq_false_iff] at h
    have h0 : ¬(f.1 = k) := by
      intro hc
      simp [hc] at h
    obtain ⟨k0, v0⟩ := f
    rw [getField, if_neg h0]
    exact ih (by simpa [hasKey] using h.2)

theorem mergeTier_self (t : JVal) (ie : Bool) : mergeTier t t ie = t := by
  by_cases ht : truthy t
  · by_cases hd : tierHasData t
    · simp [mergeTier, ht, hd, tierHasData]
    · cases ie <;> simp [mergeTier, ht, hd, tierHasData]
  · simp [mergeTier, ht]

theorem mergeIncomingSeasons_append (es : List (String × JVal)) :
    ∀ (acc : List (String × JVal)) (ie : Bool),
      (acc.map Prod.fst ++ es.map Prod.fst).Nodup →
      mergeIncomingSeasons acc es ie = acc ++ es := by
  induction es with
  | nil => intro acc ie _; simp [mergeIncomingSeasons]
  | cons e rest ih =>
    intro acc ie hnd
    obtain ⟨k0, v0⟩ := e
    have hdisj := (List.nodup_append.mp hnd).2.2
    have hk : hasKey acc k0 = false := by
      rw [← Bool.not_eq_true, hasKey_iff_mem_keys]
      intro hmem
      exact hdisj hmem (by simp)
    have hget : getField acc k0 = .jundefined := getField_eq_jundef_of_not_hasKey _ _ hk
    have hnd' : ((acc ++ [(k0, v0)]).map Prod.fst ++ rest.map Prod.fst).Nodup := by
      simpa [List.append_assoc] using hnd
    calc mergeIncomingSeasons acc ((k0, v0) :: rest) ie
        = mergeIncomingSeasons (acc ++ [(k0, v0)]) rest ie := by
          simp only [mergeIncomingSeasons, List.foldl_cons]
          rw [hget]
          simp only [truthy, Bool.not_false, if_pos,
            objSet_of_not_hasKey acc k0 v0 hk]
      _ = (acc ++ [(k0, v0)]) ++ rest := ih (acc ++ [(k0, v0)]) ie hnd'
      _ = acc ++ (k0, v0) :: rest := by simp

theorem mergeRecordEntries_self_gen (gs : List (String × JVal)) (ie : Bool)
    (hnd : KeysNodup gs) :
    ∀ (todo : List (String × JVal)), (∀ kv ∈ todo, kv ∈ gs) →
      mergeRecordEntries gs todo ie = gs := by
  intro todo
  induction todo with
  | nil => intro _; rfl
  | cons kv rest ih =>
    intro hmem
    obtain ⟨k0, v0⟩ := kv
    have hin : (k0, v0) ∈ gs := hmem _ (List.mem_cons_self _ _)
    have hget : getField gs k0 = v0 := getField_of_mem_nodup gs k0 v0 hnd hin
    have hkey : hasKey gs k0 = true := by
      rw [hasKey_iff_mem_keys]
      exact List.mem_map.mpr ⟨(k0, v0), hin, rfl⟩
    have hself : objSet gs k0 v0 = gs := objSet_self_of_getField gs k0 v0 hkey hget
    have hrest : mergeRecordEntries gs rest ie = gs :=
      ih (fun kv2 h2 => hmem kv2 (List.mem_cons_of_mem _ h2))
    simp only [mergeRecordEntries, List.foldl_cons] at hrest ⊢
    by_cases htk : isTierKey k0
    · rw [if_pos htk, hget, mergeTier_self, hself]
      exact hrest
    · rw [if_neg htk, hkey, hget]
      by_cases hln : looseNull v0 = true
      · simp only [hln, Bool.not_true, Bool.false_or, if_pos, hself]
        exact hrest
      · simp only [Bool.not_eq_true] at hln
        simp only [hln, Bool.not_true, Bool.false_or, Bool.false_eq_true, if_false]
        exact hrest

theorem mergeSeasonRecords_self (gs : List (String × JVal)) (ie : Bool)
    (hnd : KeysNodup gs) :
    mergeSeasonRecords (.jobj gs) (.jobj gs) ie = .jobj gs := by
  rw [mergeSeasonRecords]
  simp only [truthy, typeofObject, Bool.and_self, Bool.not_true,
    Bool.false_eq_true, if_false]
  have hsp : spreadToObj (JVal.jobj gs) = gs := dedupeFields_eq_self gs hnd
  have hen : entriesOf (JVal.jobj gs) = gs := dedupeFields_eq_self gs hnd
  rw [hsp, hen, mergeRecordEntries_self_gen gs ie hnd gs (fun kv h => h)]

theorem mergeIncomingSeasons_self (acc : List (String × JVal)) (ie : Bool)
    (hnd : KeysNodup acc) :
    ∀ (todo : List (String × JVal)), (∀ kv ∈ todo, kv ∈ acc) →
      (∀ kv ∈ todo, ∃ gs, kv.2 = JVal.jobj gs ∧ KeysNodup gs) →
      mergeIncomingSeasons acc todo ie = acc := by
  intro todo
  induction todo with
  | nil => intro _ _; rfl
  | cons kv rest ih =>
    intro hmem hwf
    obtain ⟨k0, v0⟩ := kv
    have hin : (k0, v0) ∈ acc := hmem _ (List.mem_cons_self _ _)
    have hget : getField acc k0 = v0 := getField_of_mem_nodup acc k0 v0 hnd hin
    have hkey : hasKey acc k0 = true := by
      rw [hasKey_iff_mem_keys]
      exact List.mem_map.mpr ⟨(k0, v0), hin, rfl⟩
    obtain ⟨gs, hv0, hgnd⟩ := hwf _ (List.mem_cons_self _ _)
    simp only at hv0
    have hrest : mergeIncomingSeasons acc rest ie = acc :=
      ih (fun kv2 h2 => hmem kv2 (List.mem_cons_of_mem _ h2))
        (fun kv2 h2 => hwf kv2 (List.mem_cons_of_mem _ h2))
    simp only [mergeIncomingSeasons, List.foldl_cons] at hrest ⊢
    rw [hget]
    have htr : truthy v0 = true := by rw [hv0]; rfl
    simp only [htr, Bool.not_true, Bool.false_eq_true, if_false]
    rw [hv0, mergeSeasonRecords_self gs ie hgnd, ← hv0,
      objSet_self_of_getField acc k0 v0 hkey hget]
    exact hrest

theorem normaliseSeasonRecord_shape (sv : JVal) (sk : String) (rec : JVal)
    (h : normaliseSeasonRecord sv sk = .ok rec) :
    ∃ gs, rec = .jobj gs ∧ KeysNodup gs := by
  rw [normaliseSeasonRecord] at h
  obtain ⟨fs, hfs, hp⟩ := except_bind_ok h
  simp only [pure, Except.pure, Except.ok.injEq] at hp
  refine ⟨fs, hp.symm, ?_⟩
  refine foldlME_invariant (fun acc => KeysNodup acc) _ ?_ _ [] fs
    (by simp [KeysNodup]) hfs
  intro s a s' hP hstep
  obtain ⟨tk, tv⟩ := a
  dsimp only at hstep
  by_cases harr : isArr tv
  · rw [if_pos harr] at hstep
    obtain ⟨rows, _, hp2⟩ := except_bind_ok hstep
    simp only [pure, Except.pure, Except.ok.injEq] at hp2
    rw [← hp2]
    exact KeysNodup_objSet _ _ _ hP
  · rw [if_neg harr] at hstep
    by_cases htd : isTierData tv
    · rw [if_pos htd] at hstep
      obtain ⟨t, _, hp2⟩ := except_bind_ok hstep
      simp only [pure, Except.pure, Except.ok.injEq] at hp2
      rw [← hp2]
      exact KeysNodup_objSet _ _ _ hP
    · rw [if_neg htd] at hstep
      by_cases hobj : (truthy tv && typeofObject tv) = true
      · rw [if_pos hobj] at hstep
        obtain ⟨t, _, hp2⟩ := except_bind_ok hstep
        simp only [pure, Except.pure, Except.ok.injEq] at hp2
        rw [← hp2]
        exact KeysNodup_objSet _ _ _ hP
      · rw [if_neg hobj] at hstep
        simp only [pure, Except.pure, Except.ok.injEq] at hstep
        rw [← hstep]
        exact hP

theorem createFootballData_wf (x y : JVal) (h : createFootballData x = .ok y) :
    ∃ fs, y = .jobj [("seasons", .jobj fs)] ∧ KeysNodup fs ∧
      ∀ kv ∈ fs, ∃ gs, kv.2 = JVal.jobj gs ∧ KeysNodup gs := by
  rw [createFootballData] at h
  obtain ⟨fs, hfs, hp⟩ := except_bind_ok h
  simp only [pure, Except.pure, Except.ok.injEq] at hp
  refine ⟨fs, hp.symm, ?_⟩
  refine foldlME_invariant
    (fun acc => KeysNodup acc ∧
      ∀ kv ∈ acc, ∃ gs, kv.2 = JVal.jobj gs ∧ KeysNodup gs)
    _ ?_ _ [] fs ⟨by simp [KeysNodup], by intro kv hkv; simp at hkv⟩ hfs
  intro s a s' hP hstep
  by_cases hobj : (truthy a.2 && typeofObject a.2) = true
  · rw [if_pos hobj] at hstep
    obtain ⟨rec, hrec, hp2⟩ := except_bind_ok hstep
    simp only [pure, Except.pure, Except.ok.injEq] at hp2
    rw [← hp2]
    refine ⟨KeysNodup_objSet _ _ _ hP.1, ?_⟩
    intro kv hkv
    rcases mem_objSet_inv hkv with hkv | hkv
    · exact hP.2 kv hkv
    · subst hkv
      exact normaliseSeasonRecord_shape a.2 a.1 rec hrec
  · rw [if_neg hobj] at hstep
    simp only [pure, Except.pure, Except.ok.injEq] at hstep
    rw [← hstep]
    exact hP

/-- C5 (amended): merging a dataset with itself produces exactly the same
result as running the single dataset through the merge pipeline, for every
dataset and both `includeEmpty` settings.  (By the counterexample, the
result is *not* in general equal to the raw input.) -/
theorem c5_merge_self_equals_single (a : JVal) (ie : Bool) :
    combineFootballDataFiles [a, a] ie = combineFootballDataFiles [a] ie := by
  rw [combineFootballDataFiles, combineFootballDataFiles]
  simp only [List.isEmpty_cons, Bool.false_eq_true, if_false]
  congr 1
  cases hc : createFootballData a with
  | error e =>
    simp [foldlME, hc, Bind.bind, Except.bind]
  | ok A =>
    obtain ⟨fs, hsh, hnd, hvals⟩ := createFootballData_wf a A hc
    have hget : getF A "seasons" = .jobj fs := by
      rw [hsh]
      simp [getF, getField]
    have hentries : entriesOf (getF A "seasons") = fs := by
      rw [hget]
      exact dedupeFields_eq_self fs hnd
    have hstep1 : mergeIncomingSeasons [] fs ie = fs := by
      have := mergeIncomingSeasons_append fs [] ie (by simpa using hnd)
      simpa using this
    have hstep2 : mergeIncomingSeasons fs fs ie = fs :=
      mergeIncomingSeasons_self fs ie hnd fs (fun kv h => h) hvals
    simp only [foldlME, hc, Bind.bind, Except.bind, pure, Except.pure,
      hentries, hstep1, hstep2]

end FootyData
